import Mathlib

/-!
# Verification of the ip-context address/submask/context engine

This file shallowly embeds the core of the `ip-context` TypeScript library
(IPv4/IPv6 parsing, formatting, submask arithmetic, tunneling transcoders and
network contexts) as executable Lean definitions, and proves or refutes the
frozen specification claims about it.

Strings are modelled as `List Char` and typed arrays (`Uint8Array`,
`Uint16Array`) as `List Nat`; out-of-range writes into a typed array are
dropped, which `List.set` matches exactly.  JavaScript primitives that the
source calls (`String.prototype.split`, `String.prototype.indexOf`,
`Number(...)`, `parseInt(..., 16)`, 32-bit signed shifts) are modelled on the
fragment of inputs reachable from the embedded code, as documented on each
definition.
-/

namespace IpContext

/-! ## Digits and base conversion -/

/-- Value of a hexadecimal digit character (`0-9`, `a-f`, `A-F`), as accepted
by the JavaScript `parseInt(s, 16)` builtin. -/
def hexDigitVal? (c : Char) : Option Nat :=
  if 48 ≤ c.toNat ∧ c.toNat ≤ 57 then some (c.toNat - 48)
  else if 97 ≤ c.toNat ∧ c.toNat ≤ 102 then some (c.toNat - 87)
  else if 65 ≤ c.toNat ∧ c.toNat ≤ 70 then some (c.toNat - 55)
  else none

/-- Digit value of a character in base `b ≤ 16` (hex digits restricted to the
base), used to model the integer fragments of the JavaScript `Number`
coercion. -/
def digitValB? (b : Nat) (c : Char) : Option Nat :=
  match hexDigitVal? c with
  | some d => if d < b then some d else none
  | none => none

/-- Digits of `n` in base `b`, least significant first.  Degenerate bases
(`b ≤ 1`) are never used. -/
def toDigitsRev (b : Nat) (n : Nat) : List Nat :=
  if b ≤ 1 ∨ n < b then [n % b]
  else n % b :: toDigitsRev b (n / b)
termination_by n
decreasing_by
  exact Nat.div_lt_self (by omega) (by omega)

/-- Value of a most-significant-first digit list in base `b`. -/
def digitsVal (b : Nat) (ds : List Nat) : Nat :=
  ds.foldl (fun a d => a * b + d) 0

/-- Value of a least-significant-first digit list in base `b`. -/
def digitsValRev (b : Nat) : List Nat → Nat
  | [] => 0
  | d :: ds => d + b * digitsValRev b ds

/-- Rendering of `n` in base `b`, as the JavaScript `Number.prototype.toString`
radix form (lowercase digits, no leading zeros, `"0"` for zero). -/
def natToChars (b : Nat) (n : Nat) : List Char :=
  ((toDigitsRev b n).reverse).map Nat.digitChar

theorem toDigitsRev_ne_nil (b n : Nat) : toDigitsRev b n ≠ [] := by
  rw [toDigitsRev]
  split <;> simp

theorem toDigitsRev_lt (b n : Nat) (hb : 2 ≤ b) : ∀ d ∈ toDigitsRev b n, d < b := by
  induction n using Nat.strong_induction_on with
  | _ n ih =>
    rw [toDigitsRev]
    split
    · intro d hd
      simp only [List.mem_singleton] at hd
      subst hd
      exact Nat.mod_lt _ (by omega)
    · intro d hd
      rcases List.mem_cons.mp hd with h | h
      · subst h; exact Nat.mod_lt _ (by omega)
      · exact ih (n / b) (Nat.div_lt_self (by omega) (by omega)) d h

theorem digitsValRev_toDigitsRev (b n : Nat) (hb : 2 ≤ b) :
    digitsValRev b (toDigitsRev b n) = n := by
  induction n using Nat.strong_induction_on with
  | _ n ih =>
    rw [toDigitsRev]
    split
    · rename_i h
      rcases h with h | h
      · omega
      · simp [digitsValRev, Nat.mod_eq_of_lt h]
    · rename_i h
      push_neg at h
      simp only [digitsValRev]
      rw [ih (n / b) (Nat.div_lt_self (by omega) (by omega))]
      exact Nat.mod_add_div n b

theorem digitsVal_append (b : Nat) (l : List Nat) (d : Nat) :
    digitsVal b (l ++ [d]) = digitsVal b l * b + d := by
  simp [digitsVal, List.foldl_append]

theorem digitsVal_reverse (b : Nat) (l : List Nat) :
    digitsVal b l.reverse = digitsValRev b l := by
  induction l with
  | nil => rfl
  | cons d ds ih =>
    simp only [List.reverse_cons, digitsVal_append, digitsValRev, ih]
    ring

theorem digitsVal_toDigitsRev_reverse (b n : Nat) (hb : 2 ≤ b) :
    digitsVal b (toDigitsRev b n).reverse = n := by
  rw [digitsVal_reverse, digitsValRev_toDigitsRev b n hb]

theorem hexDigitVal_digitChar (d : Nat) (hd : d < 16) :
    hexDigitVal? (Nat.digitChar d) = some d := by
  interval_cases d <;> decide

theorem digitValB_digitChar (b d : Nat) (hb : b ≤ 16) (hd : d < b) :
    digitValB? b (Nat.digitChar d) = some d := by
  rw [digitValB?, hexDigitVal_digitChar d (by omega)]
  simp [hd]

theorem natToChars_ne_nil (b n : Nat) : natToChars b n ≠ [] := by
  simp [natToChars, toDigitsRev_ne_nil]

/-! ## JavaScript string primitives -/

/-- JavaScript whitespace characters relevant to the `Number` coercion. -/
def isJsWs (c : Char) : Bool := c = ' ' ∨ c = '\t' ∨ c = '\n' ∨ c = '\r'

/-- Drop leading JavaScript whitespace. -/
def trimLeadWs : List Char → List Char
  | [] => []
  | c :: cs => if isJsWs c then trimLeadWs cs else c :: cs

/-- Trim JavaScript whitespace at both ends, as the `Number` coercion does. -/
def trimWs (cs : List Char) : List Char :=
  trimLeadWs ((trimLeadWs cs.reverse).reverse)

/-- Value of a nonempty all-digit string in base `b`, `none` otherwise. -/
def radixVal? (b : Nat) (cs : List Char) : Option Nat :=
  if cs ≠ [] ∧ cs.all (fun c => (digitValB? b c).isSome) then
    some (digitsVal b (cs.map (fun c => (digitValB? b c).getD 0)))
  else none

/-- Model of the JavaScript `Number(string)` coercion on the integer fragment
reachable from the embedded parsers: whitespace is trimmed, the empty string
coerces to `0`, `0x`/`0b`/`0o` prefixes select hex/binary/octal, and otherwise
a nonempty all-decimal-digit string is read in decimal.  Forms outside this
fragment (signs, exponents, fractions, `Infinity`) are modelled as `none`,
i.e. as a value failing the caller's `Number.isInteger`/range test; signs
cannot reach the parsers because `-` and `+` are forbidden characters. -/
def jsNumberNat? (cs : List Char) : Option Nat :=
  if trimWs cs = [] then some 0
  else if (trimWs cs).take 2 = ['0', 'x'] ∨ (trimWs cs).take 2 = ['0', 'X'] then
    radixVal? 16 ((trimWs cs).drop 2)
  else if (trimWs cs).take 2 = ['0', 'b'] ∨ (trimWs cs).take 2 = ['0', 'B'] then
    radixVal? 2 ((trimWs cs).drop 2)
  else if (trimWs cs).take 2 = ['0', 'o'] ∨ (trimWs cs).take 2 = ['0', 'O'] then
    radixVal? 8 ((trimWs cs).drop 2)
  else radixVal? 10 (trimWs cs)

/-- Model of `parseInt(s, 16)`: the longest prefix of hexadecimal digits,
here for token strings without whitespace, sign or `0x` prefix (the IPv6
parser's tokens cannot contain those: `+`/`-`/`x` are forbidden
characters). -/
def hexPrefixValues : List Char → List Nat
  | [] => []
  | c :: cs =>
    match hexDigitVal? c with
    | some d => d :: hexPrefixValues cs
    | none => []

/-- Model of the `parseInt(s, 16)` call in `parseIPv6Address`: `none` is the
`NaN` result. -/
def parseIntHex (cs : List Char) : Option Nat :=
  match hexPrefixValues cs with
  | [] => none
  | ds => some (digitsVal 16 ds)

/-- Model of `String.prototype.split` with a single-character separator. -/
def splitOnChar (sep : Char) : List Char → List (List Char)
  | [] => [[]]
  | c :: cs =>
    match splitOnChar sep cs with
    | [] => [[]]
    | t :: ts => if c = sep then [] :: t :: ts else (c :: t) :: ts

/-- Model of `Array.prototype.join` with a single-character separator. -/
def joinSep (sep : Char) : List (List Char) → List Char
  | [] => []
  | t :: ts =>
    match ts with
    | [] => t
    | _ :: _ => t ++ sep :: joinSep sep ts

/-- Boolean list-prefix test, the matching step of `String.prototype.indexOf`. -/
def hasPrefixL : List Char → List Char → Bool
  | [], _ => true
  | _ :: _, [] => false
  | p :: ps, s :: ss => p = s && hasPrefixL ps ss

/-- Model of `String.prototype.indexOf` with a substring argument: the first
index at which the pattern occurs, `none` standing for the `-1` result. -/
def idxOfSub (p : List Char) : List Char → Option Nat
  | [] => if p = [] then some 0 else none
  | s :: ss =>
    if hasPrefixL p (s :: ss) then some 0
    else (idxOfSub p ss).map (· + 1)

/-- Two adjacent colons occur somewhere in the string. -/
def hasColonPair : List Char → Bool
  | [] => false
  | c :: cs => (c = ':' && cs.head? = some ':') || hasColonPair cs

theorem splitOnChar_ne_nil (sep : Char) (cs : List Char) : splitOnChar sep cs ≠ [] := by
  cases cs with
  | nil => simp [splitOnChar]
  | cons c cs =>
    rw [splitOnChar]
    rcases h : splitOnChar sep cs with _ | ⟨t, ts⟩
    · simp
    · by_cases hc : c = sep <;> simp [hc]

theorem splitOnChar_cons_sep (sep : Char) (cs : List Char) :
    splitOnChar sep (sep :: cs) = [] :: splitOnChar sep cs := by
  rw [splitOnChar]
  rcases h : splitOnChar sep cs with _ | ⟨t, ts⟩
  · exact absurd h (splitOnChar_ne_nil sep cs)
  · simp

theorem splitOnChar_sep_free (sep : Char) (t : List Char) (ht : sep ∉ t) :
    splitOnChar sep t = [t] := by
  induction t with
  | nil => rfl
  | cons c cs ih =>
    have hc : c ≠ sep := fun h => ht (h ▸ List.mem_cons_self c cs)
    rw [splitOnChar, ih (fun h => ht (List.mem_cons_of_mem c h))]
    simp [hc]

theorem splitOnChar_append_sep_free (sep : Char) (t s : List Char) (ht : sep ∉ t) :
    splitOnChar sep (t ++ sep :: s) = t :: splitOnChar sep s := by
  induction t with
  | nil => simpa using splitOnChar_cons_sep sep s
  | cons c cs ih =>
    have hc : c ≠ sep := fun h => ht (h ▸ List.mem_cons_self c cs)
    have ih' := ih (fun h => ht (List.mem_cons_of_mem c h))
    simp only [List.cons_append, splitOnChar, List.append_eq]
    rw [ih']
    simp [hc]

theorem splitOnChar_joinSep (sep : Char) (ts : List (List Char)) (hne : ts ≠ [])
    (hfree : ∀ t ∈ ts, sep ∉ t) :
    splitOnChar sep (joinSep sep ts) = ts := by
  induction ts with
  | nil => exact absurd rfl hne
  | cons t ts ih =>
    cases ts with
    | nil =>
      rw [joinSep, splitOnChar_sep_free sep t (hfree t (List.mem_cons_self t []))]
    | cons u us =>
      rw [joinSep]
      rw [splitOnChar_append_sep_free sep t _ (hfree t (List.mem_cons_self t _))]
      rw [ih (by simp) (fun v hv => hfree v (List.mem_cons_of_mem t hv))]

theorem hasPrefixL_colons (c : Char) (cs : List Char) :
    hasPrefixL [':', ':'] (c :: cs) = ((c = ':' : Bool) && (cs.head? = some ':' : Bool)) := by
  cases cs with
  | nil => simp [hasPrefixL]
  | cons d ds =>
    simp only [hasPrefixL, List.head?_cons]
    by_cases hc : c = ':' <;> by_cases hd : d = ':' <;>
      simp [hc, hd, eq_comm]

theorem idxOfSub_colons_eq_none_iff (s : List Char) :
    idxOfSub [':', ':'] s = none ↔ hasColonPair s = false := by
  induction s with
  | nil => simp [idxOfSub, hasColonPair]
  | cons c cs ih =>
    rw [idxOfSub, hasColonPair, hasPrefixL_colons]
    by_cases h : ((c = ':' : Bool) && (cs.head? = some ':' : Bool)) = true
    · simp [h]
    · simp only [Bool.not_eq_true] at h
      simp only [h, Bool.false_or]
      rw [← ih]
      cases idxOfSub [':', ':'] cs <;> simp

theorem idxOfSub_colons_exact (pre post : List Char)
    (hpre : hasColonPair pre = false) (hlast : pre.getLast? ≠ some ':') :
    idxOfSub [':', ':'] (pre ++ ':' :: ':' :: post) = some pre.length := by
  induction pre with
  | nil =>
    simp [idxOfSub, hasPrefixL]
  | cons c cs ih =>
    rw [hasColonPair] at hpre
    simp only [Bool.or_eq_false_iff, Bool.and_eq_false_iff,
      decide_eq_false_iff_not] at hpre
    have hcs_last : cs.getLast? ≠ some ':' := by
      rcases cs with _ | ⟨d, ds⟩
      · simp
      · intro h
        exact hlast (by rw [List.getLast?_cons_cons]; exact h)
    have hmain := ih hpre.2 hcs_last
    simp only [List.cons_append]
    rw [idxOfSub, hasPrefixL_colons]
    rcases cs with _ | ⟨d, ds⟩
    · have hc : c ≠ ':' := by
        intro h
        exact hlast (by simp [h])
      rw [if_neg (by simp [hc])]
      simp [idxOfSub, hasPrefixL]
    · by_cases hc : c = ':'
      · have hd : d ≠ ':' := by
          rcases hpre.1 with h | h
          · exact absurd hc h
          · simpa using h
        rw [if_neg (by simp [hd])]
        simp only [List.append_eq] at hmain ⊢
        rw [hmain]
        simp
      · rw [if_neg (by simp [hc])]
        simp only [List.append_eq] at hmain ⊢
        rw [hmain]
        simp

theorem joinSep_ne_nil (sep : Char) (t : List Char) (ts : List (List Char)) (ht : t ≠ []) :
    joinSep sep (t :: ts) ≠ [] := by
  cases ts <;> simp [joinSep, ht]

theorem joinSep_head? (sep : Char) (t : List Char) (ts : List (List Char)) (ht : t ≠ []) :
    (joinSep sep (t :: ts)).head? = t.head? := by
  cases ts with
  | nil => rfl
  | cons u us =>
    rw [joinSep]
    rcases t with _ | ⟨c, cs⟩
    · exact absurd rfl ht
    · rfl

theorem hasColonPair_append_free (t s : List Char) (ht : ':' ∉ t) :
    hasColonPair (t ++ s) = hasColonPair s := by
  induction t with
  | nil => rfl
  | cons c cs ih =>
    have hc : c ≠ ':' := fun h => ht (h ▸ List.mem_cons_self c cs)
    rw [List.cons_append, hasColonPair, ih (fun h => ht (List.mem_cons_of_mem c h))]
    simp [hc]

theorem hasColonPair_joinSep (ts : List (List Char))
    (h : ∀ t ∈ ts, t ≠ [] ∧ ':' ∉ t) :
    hasColonPair (joinSep ':' ts) = false := by
  induction ts with
  | nil => rfl
  | cons t ts ih =>
    have ht := h t (List.mem_cons_self t ts)
    cases ts with
    | nil =>
      rw [joinSep]
      have : hasColonPair (t ++ []) = hasColonPair [] :=
        hasColonPair_append_free t [] ht.2
      simpa using this
    | cons u us =>
      have hu := h u (List.mem_cons_of_mem t (List.mem_cons_self u us))
      rw [joinSep, hasColonPair_append_free t _ ht.2, hasColonPair]
      rw [joinSep_head? ':' u us hu.1]
      have hhd : (u.head? = some ':') = False := by
        rcases u with _ | ⟨c, cs⟩
        · exact absurd rfl hu.1
        · have : c ≠ ':' := fun hc => hu.2 (hc ▸ List.mem_cons_self c cs)
          simp [this]
      rw [ih (fun v hv => h v (List.mem_cons_of_mem t hv))]
      simp [hhd]

theorem joinSep_getLast?_ne_colon (ts : List (List Char)) (hne : ts ≠ [])
    (h : ∀ t ∈ ts, t ≠ [] ∧ ':' ∉ t) :
    (joinSep ':' ts).getLast? ≠ some ':' := by
  induction ts with
  | nil => exact absurd rfl hne
  | cons t ts ih =>
    have ht := h t (List.mem_cons_self t ts)
    cases ts with
    | nil =>
      rw [joinSep]
      intro hcontra
      have : ':' ∈ t := by
        have := List.getLast?_eq_getLast t ht.1 ▸ hcontra
        have hmem := List.getLast_mem ht.1
        rw [Option.some_inj] at this
        rwa [this] at hmem
      exact ht.2 this
    | cons u us =>
      have hu := h u (List.mem_cons_of_mem t (List.mem_cons_self u us))
      rw [joinSep]
      have hrest : joinSep ':' (u :: us) ≠ [] := joinSep_ne_nil ':' u us hu.1
      have htail := ih (by simp) (fun v hv => h v (List.mem_cons_of_mem t hv))
      rw [List.getLast?_append_cons]
      rcases hj : joinSep ':' (u :: us) with _ | ⟨r, rs⟩
      · exact absurd hj hrest
      · rw [List.getLast?_cons_cons]
        rw [hj] at htail
        exact htail

/-! ## Typed-array write semantics

A `Uint8Array`/`Uint16Array` is a fixed-length array whose out-of-range writes
are silently discarded; `List.set` has exactly this behaviour. -/

/-- Sequential writes `res[i++] = x` for each `x` in `xs`. -/
def setSeq : List Nat → Nat → List Nat → List Nat
  | res, _, [] => res
  | res, i, x :: xs => setSeq (res.set i x) (i + 1) xs

theorem eq_of_getD (l₁ l₂ : List Nat) (hlen : l₁.length = l₂.length)
    (h : ∀ j, l₁.getD j 0 = l₂.getD j 0) : l₁ = l₂ := by
  induction l₁ generalizing l₂ with
  | nil =>
    cases l₂ with
    | nil => rfl
    | cons b bs => simp at hlen
  | cons a as ih =>
    cases l₂ with
    | nil => simp at hlen
    | cons b bs =>
      have h0 := h 0
      simp only [List.getD_cons_zero] at h0
      rw [h0, ih bs (by simpa using hlen) (fun j => by simpa using h (j + 1))]

theorem getD_set_ne (l : List Nat) (i j v : Nat) (h : i ≠ j) :
    (l.set i v).getD j 0 = l.getD j 0 := by
  induction l generalizing i j with
  | nil => simp
  | cons a as ih =>
    cases i with
    | zero =>
      cases j with
      | zero => exact absurd rfl h
      | succ j' => simp [List.set]
    | succ i' =>
      cases j with
      | zero => simp [List.set]
      | succ j' => simpa [List.set] using ih i' j' (by omega)

theorem getD_set_eq (l : List Nat) (i v : Nat) (h : i < l.length) :
    (l.set i v).getD i 0 = v := by
  induction l generalizing i with
  | nil => simp at h
  | cons a as ih =>
    cases i with
    | zero => simp [List.set]
    | succ i' => simpa [List.set] using ih i' (by simpa using h)

theorem setSeq_length (xs : List Nat) : ∀ (res : List Nat) (i : Nat),
    (setSeq res i xs).length = res.length := by
  induction xs with
  | nil => intro res i; rfl
  | cons x xs ih =>
    intro res i
    rw [setSeq, ih]
    simp

theorem setSeq_getD_lt (xs : List Nat) : ∀ (res : List Nat) (i j : Nat), j < i →
    (setSeq res i xs).getD j 0 = res.getD j 0 := by
  induction xs with
  | nil => intro res i j _; rfl
  | cons x xs ih =>
    intro res i j hj
    rw [setSeq, ih _ (i + 1) j (by omega), getD_set_ne _ _ _ _ (by omega)]

theorem setSeq_getD_ge (xs : List Nat) : ∀ (res : List Nat) (i j : Nat),
    i + xs.length ≤ j → (setSeq res i xs).getD j 0 = res.getD j 0 := by
  induction xs with
  | nil => intro res i j _; rfl
  | cons x xs ih =>
    intro res i j hj
    simp only [List.length_cons] at hj
    rw [setSeq, ih _ (i + 1) j (by omega), getD_set_ne _ _ _ _ (by omega)]

theorem setSeq_getD_in (xs : List Nat) : ∀ (res : List Nat) (i j : Nat),
    i ≤ j → j < i + xs.length → j < res.length →
    (setSeq res i xs).getD j 0 = xs.getD (j - i) 0 := by
  induction xs with
  | nil =>
    intro res i j h1 h2
    simp at h2
    omega
  | cons x xs ih =>
    intro res i j h1 h2 h3
    rw [setSeq]
    by_cases hji : j = i
    · subst hji
      rw [setSeq_getD_lt xs _ (j + 1) j (by omega), getD_set_eq _ _ _ h3]
      simp
    · rw [ih _ (i + 1) j (by omega) (by simp at h2; omega) (by simpa using h3)]
      have : j - i = (j - (i + 1)) + 1 := by omega
      rw [this]
      simp

/-! ## Address parsing and formatting

Translated from `src/libs/functions/parsing.ts` and
`src/libs/functions/conversion.ts` (`stringify`). -/

/-- Error data of `IncorrectAddressError`, by its `type` discriminant. -/
inductive AddrErr
  | incorrectFormat
  | incorrectItem
  | tooManyShortcuts
  | incorrectZoneId
  | invalidTunneling
  | teredoIncorrectFlags
  | teredoIncorrectPort
deriving DecidableEq, Repr

/-- The `FORBIDDEN_CHARS[4]` regular expression `/[-+^*:\/]/`. -/
def isForbidden4 (c : Char) : Bool :=
  c = '-' ∨ c = '+' ∨ c = '^' ∨ c = '*' ∨ c = ':' ∨ c = '/'

/-- The `FORBIDDEN_CHARS[6]` regular expression `/[-+^*.\/g-zG-Z]/` (the
letter ranges written on character codes: `g`..`z` is 103..122 and `G`..`Z`
is 71..90). -/
def isForbidden6 (c : Char) : Bool :=
  c = '-' ∨ c = '+' ∨ c = '^' ∨ c = '*' ∨ c = '.' ∨ c = '/' ∨
    (103 ≤ c.toNat ∧ c.toNat ≤ 122) ∨ (71 ≤ c.toNat ∧ c.toNat ≤ 90)

/-- The token loop of `parseIPv4Address`: each dot-token goes through
`Number(...)` and the `Number.isInteger`/range test, and is stored in order. -/
def parseIPv4Tokens : List (List Char) → Except AddrErr (List Nat)
  | [] => .ok []
  | t :: ts =>
    match jsNumberNat? t with
    | none => .error .incorrectItem
    | some n =>
      if n > 255 then .error .incorrectItem
      else
        match parseIPv4Tokens ts with
        | .error e => .error e
        | .ok rest => .ok (n :: rest)

/-- Model of `parseIPv4Address` (`parsing.ts`): forbidden character check,
split on `.`, exactly 4 tokens, each token through `Number` and the
`[0, 255]` integer test. -/
def parseIPv4Address (cs : List Char) : Except AddrErr (List Nat) :=
  if cs.any isForbidden4 then .error .incorrectFormat
  else
    let toks := splitOnChar '.' cs
    if toks.length ≠ 4 then .error .incorrectFormat
    else parseIPv4Tokens toks

/-- Model of `stringifyIPv4Address`: `array.join "."` with decimal words. -/
def stringifyIPv4Address (ws : List Nat) : List Char :=
  joinSep '.' (ws.map (natToChars 10))

/-- Replacement step of `searchMaxZeroSuite`: keep the stored run unless the
current one is strictly longer (so the earliest maximal run wins). -/
def mergeSuite : Option (Nat × Nat) → Nat × Nat → Option (Nat × Nat)
  | none, cur => some cur
  | some r, cur => if r.2 - r.1 < cur.2 - cur.1 then some cur else some r

/-- Loop of `searchMaxZeroSuite` over the remaining words, carrying the index
of the next word, the best run so far and the currently open run. -/
def smzsGo : Nat → Option (Nat × Nat) → Option (Nat × Nat) → List Nat → Option (Nat × Nat)
  | _, res, none, [] => res
  | _, res, some c, [] => mergeSuite res c
  | i, res, none, w :: ws =>
    if w = 0 then smzsGo (i + 1) res (some (i, i)) ws
    else smzsGo (i + 1) res none ws
  | i, res, some c, w :: ws =>
    if w = 0 then smzsGo (i + 1) res (some (c.1, i)) ws
    else smzsGo (i + 1) (mergeSuite res c) none ws

/-- Model of `searchMaxZeroSuite` (`conversion.ts`): bounds of the earliest
longest run of zero words, or `none`. -/
def searchMaxZeroSuite (ws : List Nat) : Option (Nat × Nat) :=
  smzsGo 0 none none ws

/-- One word rendered as lowercase hex, `item.toString(16)`. -/
def sfyTok (w : Nat) : List Char := natToChars 16 w

/-- The `while` loop of `stringifyIPv6Address`, producing the token list that
is then joined with `":"`; `fuel` bounds the iteration count. -/
def sfyLoop (ws : List Nat) (skip : Option (Nat × Nat)) : Nat → Nat → List (List Char)
  | 0, _ => []
  | fuel + 1, i =>
    if i < ws.length then
      match skip with
      | none => sfyTok (ws.getD i 0) :: sfyLoop ws skip fuel (i + 1)
      | some (s, e) =>
        if i = s then
          (if s ≠ 0 then ([] : List Char) else [':']) ::
            ((if e = 7 then [([] : List Char)] else []) ++ sfyLoop ws skip fuel (e + 1))
        else sfyTok (ws.getD i 0) :: sfyLoop ws skip fuel (i + 1)
    else []

/-- Model of `stringifyIPv6Address` (`conversion.ts`). -/
def stringifyIPv6Address (ws : List Nat) : List Char :=
  joinSep ':' (sfyLoop ws (searchMaxZeroSuite ws) (ws.length + 1) 0)

/-- Model of `countZeroToAdd` (`parsing.ts`): how many zero words the single
`::` shortcut stands for (an `Int`, as the JavaScript subtraction can go
negative on malformed input). -/
def countZeroToAdd (cs : List Char) : Except AddrErr Int :=
  if cs = [':', ':'] then .ok 8
  else
    match idxOfSub [':', ':'] cs with
    | none => .ok 0
    | some idx =>
      let right := cs.take idx
      let left := cs.drop (idx + 2)
      if left.head? = some ':' then .error .tooManyShortcuts
      else if (idxOfSub [':', ':'] left).isSome then .error .tooManyShortcuts
      else
        .ok (8 - (((splitOnChar ':' right).length : Int) + ((splitOnChar ':' left).length : Int)))

/-- The `for j < nbZeroToAdd` loop writing zero words at increasing indexes. -/
def setZeros (res : List Nat) (i n : Nat) : List Nat :=
  setSeq res i (List.replicate n 0)

/-- The part loop of `parseIPv6Address`: an empty token expands to
`nb` zero words, any other token goes through `parseInt(part, 16)` and the
`[0, 65535]` range test; writes beyond index 7 are dropped by the
`Uint16Array`. -/
def fillParts : List (List Char) → Nat → List Nat → Nat → Except AddrErr (List Nat)
  | [], _, res, _ => .ok res
  | p :: ps, nb, res, idx =>
    if p = [] then fillParts ps nb (setZeros res idx nb) (idx + nb)
    else
      match parseIntHex p with
      | none => .error .incorrectItem
      | some v =>
        if v > 65535 then .error .incorrectItem
        else fillParts ps nb (res.set idx v) (idx + 1)

/-- Model of `parseIPv6Address` (`parsing.ts`): forbidden character check,
`countZeroToAdd` (propagating its errors), split on `:`, the `parts.shift()`
adjustment when the first split token is empty, then the token loop. -/
def parseIPv6Address (cs : List Char) : Except AddrErr (List Nat) :=
  if cs.any isForbidden6 then .error .incorrectFormat
  else
    (countZeroToAdd cs).bind (fun nb0 =>
      if (splitOnChar ':' cs).head? = some [] then
        fillParts (splitOnChar ':' cs).tail (nb0 + 1).toNat (List.replicate 8 0) 0
      else
        fillParts (splitOnChar ':' cs) (nb0).toNat (List.replicate 8 0) 0)

/-- Model of `verifyZoneId` (`check.ts`): a nonempty alphanumeric token
(`/^[a-zA-Z0-9]+$/`, on character codes). -/
def verifyZoneId (z : List Char) : Bool :=
  z ≠ [] ∧ z.all (fun c =>
    (97 ≤ c.toNat ∧ c.toNat ≤ 122) ∨ (65 ≤ c.toNat ∧ c.toNat ≤ 90) ∨
      (48 ≤ c.toNat ∧ c.toNat ≤ 57))

/-- Model of `IPv6Address.fromString` (`ipaddress/ipv6.ts`): split off a
`%zone` suffix, parse, then run the constructor's `isCorrectAddress` check
and the zone-id check.  Returns the word array with the optional zone id. -/
def IPv6Address_fromString (cs : List Char) : Except AddrErr (List Nat × Option (List Char)) :=
  match idxOfSub ['%'] cs with
  | none =>
    (parseIPv6Address cs).bind (fun ws =>
      if ws.length = 8 ∧ ws.all (· ≤ 65535) then .ok (ws, none)
      else .error .incorrectItem)
  | some i =>
    (parseIPv6Address (cs.take i)).bind (fun ws =>
      if ws.length = 8 ∧ ws.all (· ≤ 65535) then
        (if verifyZoneId (cs.drop (i + 1)) then .ok (ws, some (cs.drop (i + 1)))
         else .error .incorrectZoneId)
      else .error .incorrectItem)

/-! ## Character classification facts -/

theorem toNat_of_hexDigit (c : Char) (h : (hexDigitVal? c).isSome) :
    (48 ≤ c.toNat ∧ c.toNat ≤ 57) ∨ (97 ≤ c.toNat ∧ c.toNat ≤ 102) ∨
      (65 ≤ c.toNat ∧ c.toNat ≤ 70) := by
  rw [hexDigitVal?] at h
  split at h
  · left; assumption
  · split at h
    · right; left; assumption
    · split at h
      · right; right; assumption
      · simp at h

theorem char_eq_toNat {c d : Char} (h : c = d) : c.toNat = d.toNat := h ▸ rfl

theorem hexDigit_not_forbidden6 (c : Char) (h : (hexDigitVal? c).isSome) :
    isForbidden6 c = false := by
  have hb := toNat_of_hexDigit c h
  rw [isForbidden6]
  simp only [Bool.decide_or, Bool.or_eq_false_iff, decide_eq_false_iff_not]
  refine ⟨?_, ?_, ?_, ?_, ?_, ?_, ?_, ?_⟩ <;>
    first
      | (intro hc; subst hc; revert hb; decide)
      | omega

theorem hexDigit_ne_colon (c : Char) (h : (hexDigitVal? c).isSome) : c ≠ ':' := by
  have hb := toNat_of_hexDigit c h
  intro hc
  subst hc
  revert hb
  decide

theorem hexDigit_ne_percent (c : Char) (h : (hexDigitVal? c).isSome) : c ≠ '%' := by
  have hb := toNat_of_hexDigit c h
  intro hc
  subst hc
  revert hb
  decide

theorem toNat_of_decDigit (c : Char) (h : (digitValB? 10 c).isSome) :
    48 ≤ c.toNat ∧ c.toNat ≤ 57 := by
  rw [digitValB?] at h
  rcases hh : hexDigitVal? c with _ | d
  · rw [hh] at h; simp at h
  · rw [hh] at h
    simp only at h
    split at h
    · rename_i hd
      rw [hexDigitVal?] at hh
      split at hh
      · assumption
      · split at hh
        · rename_i h1 _
          exfalso
          simp only [Option.some_inj] at hh
          omega
        · split at hh
          · rename_i h1 _
            exfalso
            simp only [Option.some_inj] at hh
            omega
          · simp at hh
    · simp at h

theorem decDigit_not_forbidden4 (c : Char) (h : (digitValB? 10 c).isSome) :
    isForbidden4 c = false := by
  have hb := toNat_of_decDigit c h
  rw [isForbidden4]
  simp only [Bool.decide_or, Bool.or_eq_false_iff, decide_eq_false_iff_not]
  refine ⟨?_, ?_, ?_, ?_, ?_, ?_⟩ <;>
    (intro hc; subst hc; revert hb; decide)

theorem decDigit_ne_dot (c : Char) (h : (digitValB? 10 c).isSome) : c ≠ '.' := by
  have hb := toNat_of_decDigit c h
  intro hc
  subst hc
  revert hb
  decide

theorem decDigit_not_ws (c : Char) (h : (digitValB? 10 c).isSome) : isJsWs c = false := by
  have hb := toNat_of_decDigit c h
  rw [isJsWs]
  simp only [Bool.decide_or, Bool.or_eq_false_iff, decide_eq_false_iff_not]
  refine ⟨?_, ?_, ?_, ?_⟩ <;>
    (intro hc; subst hc; revert hb; decide)

theorem digitValB_isSome_of_digitChar (b d : Nat) (hb : b ≤ 16) (hd : d < b) :
    (digitValB? b (Nat.digitChar d)).isSome := by
  rw [digitValB_digitChar b d hb hd]
  rfl

theorem hexDigitVal_isSome_of_digitChar (d : Nat) (hd : d < 16) :
    (hexDigitVal? (Nat.digitChar d)).isSome := by
  rw [hexDigitVal_digitChar d hd]
  rfl

/-! ## Token-level inverse lemmas -/

theorem mem_natToChars_digitValB (b : Nat) (w : Nat) (hb2 : 2 ≤ b) (hb16 : b ≤ 16) :
    ∀ c ∈ natToChars b w, (digitValB? b c).isSome := by
  intro c hc
  rw [natToChars] at hc
  rcases List.mem_map.mp hc with ⟨d, hd, rfl⟩
  have : d < b := toDigitsRev_lt b w hb2 d (List.mem_reverse.mp hd)
  exact digitValB_isSome_of_digitChar b d hb16 this

theorem mem_natToChars_hexDigit (w : Nat) :
    ∀ c ∈ natToChars 16 w, (hexDigitVal? c).isSome := by
  intro c hc
  rw [natToChars] at hc
  rcases List.mem_map.mp hc with ⟨d, hd, rfl⟩
  have : d < 16 := toDigitsRev_lt 16 w (by omega) d (List.mem_reverse.mp hd)
  exact hexDigitVal_isSome_of_digitChar d this

theorem radixVal_natToChars (b w : Nat) (hb2 : 2 ≤ b) (hb16 : b ≤ 16) :
    radixVal? b (natToChars b w) = some w := by
  rw [radixVal?]
  rw [if_pos]
  · congr 1
    have hmap : (natToChars b w).map (fun c => (digitValB? b c).getD 0) =
        (toDigitsRev b w).reverse := by
      rw [natToChars, List.map_map]
      have : ∀ d ∈ (toDigitsRev b w).reverse,
          ((fun c => (digitValB? b c).getD 0) ∘ Nat.digitChar) d = id d := by
        intro d hd
        have hdb : d < b := toDigitsRev_lt b w hb2 d (List.mem_reverse.mp hd)
        simp [Function.comp, digitValB_digitChar b d hb16 hdb]
      rw [List.map_congr_left this, List.map_id]
    rw [hmap, digitsVal_toDigitsRev_reverse b w hb2]
  · constructor
    · exact natToChars_ne_nil b w
    · rw [List.all_eq_true]
      intro c hc
      exact mem_natToChars_digitValB b w hb2 hb16 c hc

theorem parseIntHex_natToChars (w : Nat) : parseIntHex (natToChars 16 w) = some w := by
  rw [parseIntHex]
  have hpfx : hexPrefixValues (natToChars 16 w) = (toDigitsRev 16 w).reverse := by
    rw [natToChars]
    generalize hds : (toDigitsRev 16 w).reverse = ds
    have hlt : ∀ d ∈ ds, d < 16 := by
      intro d hd
      exact toDigitsRev_lt 16 w (by omega) d (List.mem_reverse.mp (hds ▸ hd))
    clear hds
    induction ds with
    | nil => rfl
    | cons d ds ih =>
      rw [List.map_cons, hexPrefixValues,
        hexDigitVal_digitChar d (hlt d (List.mem_cons_self d ds))]
      rw [ih (fun x hx => hlt x (List.mem_cons_of_mem d hx))]
  rw [hpfx]
  have hne : (toDigitsRev 16 w).reverse ≠ [] := by
    simp [toDigitsRev_ne_nil]
  rcases h : (toDigitsRev 16 w).reverse with _ | ⟨d, ds⟩
  · exact absurd h hne
  · show some (digitsVal 16 (d :: ds)) = some w
    rw [← h, digitsVal_toDigitsRev_reverse 16 w (by omega)]

theorem trimLeadWs_id (l : List Char) (h : ∀ c ∈ l, isJsWs c = false) :
    trimLeadWs l = l := by
  cases l with
  | nil => rfl
  | cons c cs =>
    rw [trimLeadWs, h c (List.mem_cons_self c cs)]
    simp

theorem trimWs_id (l : List Char) (h : ∀ c ∈ l, isJsWs c = false) : trimWs l = l := by
  rw [trimWs, trimLeadWs_id _ (fun c hc => h c (List.mem_reverse.mp hc)),
    List.reverse_reverse, trimLeadWs_id _ h]

theorem take_two_ne_of_digits (t : List Char) (a : Char)
    (hdig : ∀ c ∈ t, (digitValB? 10 c).isSome) (ha : (digitValB? 10 a).isSome = false) :
    t.take 2 ≠ ['0', a] := by
  intro h
  rcases t with _ | ⟨c, _ | ⟨d, rest⟩⟩
  · simp at h
  · simp at h
  · have hda : d = a := by
      simpa using congrArg (fun l => l.getD 1 ' ') h
    have := hdig d (List.mem_cons_of_mem c (List.mem_cons_self d rest))
    rw [hda, ha] at this
    simp at this

theorem jsNumberNat_natToChars10 (w : Nat) :
    jsNumberNat? (natToChars 10 w) = some w := by
  have hdig : ∀ c ∈ natToChars 10 w, (digitValB? 10 c).isSome :=
    mem_natToChars_digitValB 10 w (by omega) (by omega)
  rw [jsNumberNat?]
  rw [trimWs_id _ (fun c hc => decDigit_not_ws c (hdig c hc))]
  rw [if_neg (natToChars_ne_nil 10 w)]
  rw [if_neg, if_neg, if_neg]
  · exact radixVal_natToChars 10 w (by omega) (by omega)
  all_goals
    push_neg
    constructor <;> exact take_two_ne_of_digits _ _ hdig (by decide)

/-! ## IPv4 round trip -/

theorem mem_joinSep (sep : Char) (ts : List (List Char)) (c : Char)
    (hc : c ∈ joinSep sep ts) : c = sep ∨ ∃ t ∈ ts, c ∈ t := by
  induction ts with
  | nil => simp [joinSep] at hc
  | cons t ts ih =>
    cases ts with
    | nil =>
      right
      exact ⟨t, List.mem_cons_self t [], by simpa [joinSep] using hc⟩
    | cons u us =>
      rw [joinSep] at hc
      rcases List.mem_append.mp hc with h | h
      · exact Or.inr ⟨t, List.mem_cons_self t _, h⟩
      · rcases List.mem_cons.mp h with h | h
        · exact Or.inl h
        · rcases ih h with h | ⟨v, hv, hcv⟩
          · exact Or.inl h
          · exact Or.inr ⟨v, List.mem_cons_of_mem t hv, hcv⟩

theorem parseIPv4Tokens_map (ws : List Nat) (h : ∀ w ∈ ws, w ≤ 255) :
    parseIPv4Tokens (ws.map (natToChars 10)) = .ok ws := by
  induction ws with
  | nil => rfl
  | cons w ws ih =>
    simp only [List.map_cons, parseIPv4Tokens, jsNumberNat_natToChars10 w,
      ih (fun x hx => h x (List.mem_cons_of_mem w hx))]
    rw [if_neg (by have := h w (List.mem_cons_self w ws); omega)]

theorem parseIPv4_stringifyIPv4 (ws : List Nat) (hlen : ws.length = 4)
    (hb : ∀ w ∈ ws, w ≤ 255) :
    parseIPv4Address (stringifyIPv4Address ws) = .ok ws := by
  have hdig : ∀ t ∈ ws.map (natToChars 10), ∀ c ∈ t, (digitValB? 10 c).isSome := by
    intro t ht c hc
    rcases List.mem_map.mp ht with ⟨w, _, rfl⟩
    exact mem_natToChars_digitValB 10 w (by omega) (by omega) c hc
  have hwsne : ws.map (natToChars 10) ≠ [] := by
    intro hc
    rw [List.map_eq_nil_iff] at hc
    subst hc
    simp at hlen
  rw [parseIPv4Address, stringifyIPv4Address]
  rw [if_neg]
  · rw [splitOnChar_joinSep '.' _ hwsne
      (fun t ht hdot => decDigit_ne_dot '.' (hdig t ht '.' hdot) rfl)]
    rw [if_neg (by simp [hlen])]
    exact parseIPv4Tokens_map ws hb
  · simp only [List.any_eq_true, not_exists, not_and]
    intro c hc
    rcases mem_joinSep '.' _ c hc with h | ⟨t, ht, hct⟩
    · subst h
      simp [isForbidden4]
    · simp [decDigit_not_forbidden4 c (hdig t ht c hct)]

/-! ## IPv6 round trip: the zero-run search -/

/-- A pair is a well-formed zero run of `g`-positions below `hi`. -/
def GoodRun (g : Nat → Prop) (hi : Nat) (p : Nat × Nat) : Prop :=
  p.1 ≤ p.2 ∧ p.2 < hi ∧ ∀ j, p.1 ≤ j → j ≤ p.2 → g j

theorem mergeSuite_good (g : Nat → Prop) (hi : Nat) (res : Option (Nat × Nat))
    (c : Nat × Nat) (hres : ∀ p, res = some p → GoodRun g hi p)
    (hc : GoodRun g hi c) : ∀ p, mergeSuite res c = some p → GoodRun g hi p := by
  intro p hp
  rcases res with _ | r
  · rw [mergeSuite] at hp
    simp only [Option.some_inj] at hp
    exact hp ▸ hc
  · rw [mergeSuite] at hp
    split at hp <;> simp only [Option.some_inj] at hp
    · exact hp ▸ hc
    · exact hp ▸ hres r rfl

theorem smzsGo_good (g : Nat → Prop) :
    ∀ (l : List Nat) (i : Nat) (res cur : Option (Nat × Nat)),
    (∀ p, res = some p → GoodRun g i p) →
    (∀ p, cur = some p → p.1 ≤ p.2 ∧ p.2 + 1 = i ∧ ∀ j, p.1 ≤ j → j ≤ p.2 → g j) →
    (∀ k, k < l.length → l.getD k 1 = 0 → g (i + k)) →
    ∀ p, smzsGo i res cur l = some p → GoodRun g (i + l.length) p := by
  intro l
  induction l with
  | nil =>
    intro i res cur hres hcur _ p hp
    rcases cur with _ | c
    · rw [smzsGo] at hp
      simpa using hres p hp
    · rw [smzsGo] at hp
      refine mergeSuite_good g i res c (hres) ?_ p hp
      obtain ⟨h1, h2, h3⟩ := hcur c rfl
      exact ⟨h1, by omega, h3⟩
  | cons w ws ih =>
    intro i res cur hres hcur hl p hp
    have hres' : ∀ p, res = some p → GoodRun g (i + 1) p := by
      intro q hq
      obtain ⟨h1, h2, h3⟩ := hres q hq
      exact ⟨h1, by omega, h3⟩
    have hl' : ∀ k, k < ws.length → ws.getD k 1 = 0 → g (i + 1 + k) := by
      intro k hk hz
      have := hl (k + 1) (by simpa using by omega) (by simpa using hz)
      rwa [show i + (k + 1) = i + 1 + k by omega] at this
    have hg0 : w = 0 → g i := by
      intro hw
      have := hl 0 (by simp) (by simpa using hw)
      simpa using this
    rcases cur with _ | c
    · rw [smzsGo] at hp
      split at hp
      · rename_i hw
        have := ih (i + 1) res (some (i, i)) hres'
          (by
            intro q hq
            simp only [Option.some_inj] at hq
            subst hq
            exact ⟨le_refl i, rfl, fun j h1 h2 => by
              have : j = i := by omega
              exact this ▸ hg0 hw⟩)
          hl' p hp
        rwa [show i + 1 + ws.length = i + (ws.length + 1) by omega] at this
      · have := ih (i + 1) res none hres' (by simp) hl' p hp
        rwa [show i + 1 + ws.length = i + (ws.length + 1) by omega] at this
    · have hcc := hcur c rfl
      rw [smzsGo] at hp
      split at hp
      · rename_i hw
        have := ih (i + 1) res (some (c.1, i)) hres'
          (by
            intro q hq
            simp only [Option.some_inj] at hq
            subst hq
            refine ⟨by omega, rfl, fun j h1 h2 => ?_⟩
            by_cases hj : j ≤ c.2
            · exact hcc.2.2 j h1 hj
            · have : j = i := by omega
              exact this ▸ hg0 hw)
          hl' p hp
        rwa [show i + 1 + ws.length = i + (ws.length + 1) by omega] at this
      · have := ih (i + 1) (mergeSuite res c) none
          (by
            refine mergeSuite_good g (i + 1) res c hres' ?_
            exact ⟨hcc.1, by omega, hcc.2.2⟩)
          (by simp) hl' p hp
        rwa [show i + 1 + ws.length = i + (ws.length + 1) by omega] at this

/-- Specification of `searchMaxZeroSuite`: a returned pair is an in-bounds run
of zero words. -/
theorem searchMaxZeroSuite_spec (ws : List Nat) (s e : Nat)
    (h : searchMaxZeroSuite ws = some (s, e)) :
    s ≤ e ∧ e < ws.length ∧ ∀ j, s ≤ j → j ≤ e → ws.getD j 1 = 0 := by
  have := smzsGo_good (fun j => ws.getD j 1 = 0) ws 0 none none
    (by simp) (by simp) (by intro k hk hz; simpa using hz) (s, e) h
  exact ⟨this.1, by simpa using this.2.1, this.2.2⟩

/-! ## IPv6 round trip: token and write lemmas -/

theorem sfyTok_ne_nil (w : Nat) : sfyTok w ≠ [] := natToChars_ne_nil 16 w

theorem parseIntHex_sfyTok (w : Nat) : parseIntHex (sfyTok w) = some w :=
  parseIntHex_natToChars w

theorem sfyTok_no_colon (w : Nat) : ':' ∉ sfyTok w := by
  intro h
  exact hexDigit_ne_colon ':' (mem_natToChars_hexDigit w ':' h) rfl

theorem sfyTok_not_forbidden (w : Nat) : ∀ c ∈ sfyTok w, isForbidden6 c = false :=
  fun c hc => hexDigit_not_forbidden6 c (mem_natToChars_hexDigit w c hc)

theorem map_sfyTok_tok_facts (xs : List Nat) :
    ∀ t ∈ xs.map sfyTok, t ≠ [] ∧ ':' ∉ t := by
  intro t ht
  rcases List.mem_map.mp ht with ⟨w, _, rfl⟩
  exact ⟨sfyTok_ne_nil w, sfyTok_no_colon w⟩

theorem joinSep_append (sep : Char) (l₁ l₂ : List (List Char)) (h₁ : l₁ ≠ [])
    (h₂ : l₂ ≠ []) :
    joinSep sep (l₁ ++ l₂) = joinSep sep l₁ ++ sep :: joinSep sep l₂ := by
  induction l₁ with
  | nil => exact absurd rfl h₁
  | cons t ts ih =>
    cases ts with
    | nil =>
      rcases l₂ with _ | ⟨u, us⟩
      · exact absurd rfl h₂
      · simp [joinSep]
    | cons v vs =>
      have htail : joinSep sep (v :: (vs ++ l₂)) =
          joinSep sep (v :: vs) ++ sep :: joinSep sep l₂ := by
        simpa [List.cons_append] using ih (by simp)
      show joinSep sep (t :: v :: (vs ++ l₂)) =
        joinSep sep (t :: v :: vs) ++ sep :: joinSep sep l₂
      rw [joinSep, htail]
      rw [show joinSep sep (t :: v :: vs) = t ++ sep :: joinSep sep (v :: vs) from rfl]
      simp [List.append_assoc]

theorem getD_take (l : List Nat) (n j : Nat) (h : j < n) :
    (l.take n).getD j 0 = l.getD j 0 := by
  rw [List.getD_eq_getElem?_getD, List.getElem?_take, if_pos h, ← List.getD_eq_getElem?_getD]

theorem getD_drop (l : List Nat) (i j : Nat) :
    (l.drop i).getD j 0 = l.getD (i + j) 0 := by
  rw [List.getD_eq_getElem?_getD, List.getElem?_drop, ← List.getD_eq_getElem?_getD]

theorem getD_replicate_zero (n j : Nat) : (List.replicate n (0 : Nat)).getD j 0 = 0 := by
  induction n generalizing j with
  | zero => simp
  | succ n ih =>
    cases j with
    | zero => simp [List.replicate]
    | succ j' =>
      rw [List.replicate, List.getD_cons_succ]
      exact ih j'

theorem setZeros_length (res : List Nat) (i n : Nat) :
    (setZeros res i n).length = res.length := by
  rw [setZeros, setSeq_length]

theorem setZeros_getD (res : List Nat) (i n j : Nat) :
    (setZeros res i n).getD j 0 =
      if i ≤ j ∧ j < i + n ∧ j < res.length then 0 else res.getD j 0 := by
  rw [setZeros]
  by_cases h1 : j < i
  · rw [setSeq_getD_lt _ _ _ _ h1, if_neg (by omega)]
  · by_cases h2 : j < i + n
    · by_cases h3 : j < res.length
      · rw [setSeq_getD_in _ _ _ _ (by omega) (by simpa using h2) h3]
        rw [if_pos ⟨by omega, h2, h3⟩]
        exact getD_replicate_zero n (j - i)
      · rw [if_neg (by omega)]
        have hlen : (setSeq res i (List.replicate n 0)).length = res.length := setSeq_length _ _ _
        rw [List.getD_eq_default _ _ (by omega), List.getD_eq_default _ _ (by omega)]
    · rw [setSeq_getD_ge _ _ _ _ (by simpa using by omega), if_neg (by omega)]

theorem fillParts_map_sfyTok (xs : List Nat) :
    ∀ (ps : List (List Char)) (nb : Nat) (res : List Nat) (idx : Nat),
    (∀ x ∈ xs, x ≤ 65535) →
    fillParts (xs.map sfyTok ++ ps) nb res idx =
      fillParts ps nb (setSeq res idx xs) (idx + xs.length) := by
  induction xs with
  | nil => intro ps nb res idx _; rfl
  | cons x xs ih =>
    intro ps nb res idx hb
    rw [List.map_cons, List.cons_append, fillParts]
    rw [if_neg (by simpa using sfyTok_ne_nil x)]
    rw [parseIntHex_sfyTok x]
    show (if x > 65535 then Except.error AddrErr.incorrectItem
        else fillParts (List.map sfyTok xs ++ ps) nb (res.set idx x) (idx + 1)) =
      fillParts ps nb (setSeq res idx (x :: xs)) (idx + (x :: xs).length)
    rw [if_neg (by have := hb x (List.mem_cons_self x xs); omega)]
    rw [ih ps nb _ (idx + 1) (fun y hy => hb y (List.mem_cons_of_mem x hy))]
    rw [setSeq]
    congr 1
    simp only [List.length_cons]
    omega

/-! ## IPv6 round trip: formatter shape -/

theorem sfyLoop_none (ws : List Nat) :
    ∀ (fuel i : Nat), ws.length ≤ i + fuel →
    sfyLoop ws none fuel i = (ws.drop i).map sfyTok := by
  intro fuel
  induction fuel with
  | zero =>
    intro i hi
    rw [sfyLoop, List.drop_eq_nil_of_le (by omega)]
    rfl
  | succ f ih =>
    intro i hi
    rw [sfyLoop]
    by_cases h : i < ws.length
    · rw [if_pos h, ih (i + 1) (by omega)]
      rw [List.drop_eq_getElem_cons h, List.map_cons]
      rw [List.getD_eq_getElem ws 0 h]
    · rw [if_neg h, List.drop_eq_nil_of_le (by omega)]
      rfl

theorem sfyLoop_skip_after (ws : List Nat) (s e : Nat) (hse : s ≤ e) :
    ∀ (fuel i : Nat), e < i → ws.length ≤ i + fuel →
    sfyLoop ws (some (s, e)) fuel i = (ws.drop i).map sfyTok := by
  intro fuel
  induction fuel with
  | zero =>
    intro i he hi
    rw [sfyLoop, List.drop_eq_nil_of_le (by omega)]
    rfl
  | succ f ih =>
    intro i he hi
    rw [sfyLoop]
    by_cases h : i < ws.length
    · rw [if_pos h, if_neg (by omega)]
      rw [ih (i + 1) (by omega) (by omega)]
      rw [List.drop_eq_getElem_cons h, List.map_cons]
      rw [List.getD_eq_getElem ws 0 h]
    · rw [if_neg h, List.drop_eq_nil_of_le (by omega)]
      rfl

theorem sfyLoop_skip_before (ws : List Nat) (s e : Nat) :
    ∀ (k fuel i : Nat), i + k = s → s < ws.length →
    sfyLoop ws (some (s, e)) (fuel + k) i =
      ((ws.drop i).take k).map sfyTok ++ sfyLoop ws (some (s, e)) fuel s := by
  intro k
  induction k with
  | zero =>
    intro fuel i hi _
    have : i = s := by omega
    subst this
    simp
  | succ k ih =>
    intro fuel i hi hs
    have hilt : i < ws.length := by omega
    rw [show fuel + (k + 1) = (fuel + k) + 1 by omega, sfyLoop]
    rw [if_pos hilt, if_neg (by omega : ¬ i = s)]
    rw [ih fuel (i + 1) (by omega) hs]
    rw [List.drop_eq_getElem_cons hilt, List.take_succ_cons, List.map_cons]
    rw [List.getD_eq_getElem ws 0 hilt]
    rfl

/-- Shape of the formatter's token list when a zero run is compressed. -/
theorem sfyLoop_shape (ws : List Nat) (s e : Nat) (hlen : ws.length = 8)
    (hse : s ≤ e) (he : e < 8) :
    sfyLoop ws (some (s, e)) 9 0 =
      (ws.take s).map sfyTok ++
        (if s ≠ 0 then ([] : List Char) else [':']) ::
          ((if e = 7 then [([] : List Char)] else []) ++ (ws.drop (e + 1)).map sfyTok) := by
  have hs8 : s < ws.length := by omega
  have h9 : (9 : Nat) = (9 - s) + s := by omega
  rw [h9, sfyLoop_skip_before ws s e s (9 - s) 0 (by omega) hs8]
  rw [List.drop_zero]
  congr 1
  have hfuel : 9 - s = (8 - s) + 1 := by omega
  rw [hfuel, sfyLoop]
  rw [if_pos hs8, if_pos rfl]
  congr 2
  exact sfyLoop_skip_after ws s e hse (8 - s) (e + 1) (by omega) (by omega)

theorem head?_ne_colon (t : List Char) (h1 : t ≠ []) (h2 : ':' ∉ t) :
    t.head? ≠ some ':' := by
  rcases t with _ | ⟨c, cs⟩
  · exact absurd rfl h1
  · have : c ≠ ':' := fun h => h2 (h ▸ List.mem_cons_self c cs)
    simp [this]

theorem joinSep_map_sfyTok_head (xs : List Nat) (h : xs ≠ []) :
    (joinSep ':' (xs.map sfyTok)).head? ≠ some ':' := by
  rcases xs with _ | ⟨w, rest⟩
  · exact absurd rfl h
  · rw [List.map_cons, joinSep_head? ':' _ _ (sfyTok_ne_nil w)]
    exact head?_ne_colon _ (sfyTok_ne_nil w) (sfyTok_no_colon w)

/-- Behaviour of `countZeroToAdd` on a string of the canonical compressed
shape `JA ++ "::" ++ JB` with well-behaved halves. -/
theorem countZeroToAdd_shape (JA JB : List Char)
    (hCPA : hasColonPair JA = false) (hlastA : JA.getLast? ≠ some ':')
    (hheadB : JB.head? ≠ some ':') (hCPB : hasColonPair JB = false)
    (hne : JA ≠ [] ∨ JB ≠ []) :
    countZeroToAdd (JA ++ ':' :: ':' :: JB) =
      .ok (8 - (((splitOnChar ':' JA).length : Int) + ((splitOnChar ':' JB).length : Int))) := by
  rw [countZeroToAdd]
  rw [if_neg]
  · rw [idxOfSub_colons_exact JA JB hCPA hlastA]
    have hdrop : (JA ++ ':' :: ':' :: JB).drop (JA.length + 2) = JB := by
      rw [List.drop_append 2]
      rfl
    have htake : (JA ++ ':' :: ':' :: JB).take JA.length = JA := List.take_left JA _
    simp only [htake, hdrop]
    rw [if_neg hheadB, if_neg]
    simp only [Option.isSome_iff_exists, not_exists]
    intro k hk
    rw [(idxOfSub_colons_eq_none_iff JB).mpr hCPB] at hk
    simp at hk
  · intro hcs
    have hlen : JA.length + (JB.length + 2) = 2 := by
      have := congrArg List.length hcs
      simp only [List.length_append, List.length_cons, List.length_nil] at this
      omega
    have hJA : JA = [] := by
      have : JA.length = 0 := by omega
      exact List.eq_nil_of_length_eq_zero this
    have hJB : JB = [] := by
      have : JB.length = 0 := by omega
      exact List.eq_nil_of_length_eq_zero this
    rcases hne with h | h
    · exact h hJA
    · exact h hJB

theorem except_bind_ok {ε α β : Type} (a : α) (f : α → Except ε β) :
    (Except.ok a : Except ε α).bind f = f a := rfl

theorem any_forbidden6_joinSep (toks : List (List Char))
    (h : ∀ t ∈ toks, ∀ c ∈ t, isForbidden6 c = false) :
    (joinSep ':' toks).any isForbidden6 = false := by
  rw [List.any_eq_false]
  intro c hc
  rcases mem_joinSep ':' toks c hc with h1 | ⟨t, ht, hct⟩
  · subst h1
    decide
  · simp [h t ht c hct]

theorem setSeq_replicate_full (ws : List Nat) (hlen : ws.length = 8) :
    setSeq (List.replicate 8 0) 0 ws = ws := by
  apply eq_of_getD
  · rw [setSeq_length]
    simp [hlen]
  · intro j
    by_cases hj : j < 8
    · rw [setSeq_getD_in ws _ 0 j (by omega) (by simpa [hlen] using hj) (by simpa using hj)]
      simp
    · rw [setSeq_getD_ge ws _ 0 j (by simp [hlen]; omega)]
      rw [getD_replicate_zero, List.getD_eq_default _ _ (by omega)]

theorem joinSep_map_sfyTok_ne_nil (xs : List Nat) (h : xs ≠ []) :
    joinSep ':' (xs.map sfyTok) ≠ [] := by
  rcases xs with _ | ⟨w, rest⟩
  · exact absurd rfl h
  · rw [List.map_cons]
    exact joinSep_ne_nil ':' _ _ (sfyTok_ne_nil w)

theorem head?_map_sfyTok_ne_empty (xs : List Nat) (h : xs ≠ []) :
    (xs.map sfyTok).head? ≠ some ([] : List Char) := by
  rcases xs with _ | ⟨w, rest⟩
  · exact absurd rfl h
  · intro hc
    simp only [List.map_cons, List.head?_cons, Option.some_inj] at hc
    exact sfyTok_ne_nil w hc

theorem fillParts_empty_step (ps : List (List Char)) (nb : Nat) (res : List Nat)
    (idx : Nat) :
    fillParts (([] : List Char) :: ps) nb res idx =
      fillParts ps nb (setZeros res idx nb) (idx + nb) := by
  rw [fillParts]
  simp


theorem parseIPv6_stringifyIPv6 (ws : List Nat) (hlen : ws.length = 8)
    (hb : ∀ w ∈ ws, w ≤ 65535) :
    parseIPv6Address (stringifyIPv6Address ws) = .ok ws := by
  have hwsne : ws ≠ [] := by
    intro h
    rw [h] at hlen
    simp at hlen
  rcases hz : searchMaxZeroSuite ws with _ | ⟨s, e⟩
  · rw [stringifyIPv6Address, hz]
    rw [sfyLoop_none ws (ws.length + 1) 0 (by omega), List.drop_zero]
    have htf := map_sfyTok_tok_facts ws
    have hCP : hasColonPair (joinSep ':' (ws.map sfyTok)) = false :=
      hasColonPair_joinSep _ htf
    have hforb : (joinSep ':' (ws.map sfyTok)).any isForbidden6 = false :=
      any_forbidden6_joinSep _ (fun t ht c hc => by
        rcases List.mem_map.mp ht with ⟨w, _, rfl⟩
        exact sfyTok_not_forbidden w c hc)
    have hcz : countZeroToAdd (joinSep ':' (ws.map sfyTok)) = .ok 0 := by
      rw [countZeroToAdd]
      rw [if_neg (by
        intro h
        rw [h] at hCP
        exact absurd hCP (by decide))]
      rw [(idxOfSub_colons_eq_none_iff _).mpr hCP]
    have hsplit : splitOnChar ':' (joinSep ':' (ws.map sfyTok)) = ws.map sfyTok :=
      splitOnChar_joinSep ':' _ (by simpa using hwsne) (fun t ht => (htf t ht).2)
    rw [parseIPv6Address, if_neg (by simp [hforb]), hcz, except_bind_ok]
    rw [hsplit]
    rw [if_neg (head?_map_sfyTok_ne_empty ws hwsne)]
    have hfill : fillParts (ws.map sfyTok) (0 : Int).toNat (List.replicate 8 0) 0 =
        .ok (setSeq (List.replicate 8 0) 0 ws) := by
      have h := fillParts_map_sfyTok ws [] (0 : Int).toNat (List.replicate 8 0) 0 hb
      rw [List.append_nil] at h
      rw [h]
      rfl
    rw [hfill, setSeq_replicate_full ws hlen]
  · obtain ⟨hse, he8, hrun⟩ := searchMaxZeroSuite_spec ws s e hz
    have he7 : e ≤ 7 := by
      rw [hlen] at he8
      omega
    have hrun0 : ∀ j, s ≤ j → j ≤ e → ws.getD j 0 = 0 := by
      intro j h1 h2
      have hj8 : j < ws.length := by omega
      have h := hrun j h1 h2
      rw [List.getD_eq_getElem ws 1 hj8] at h
      rw [List.getD_eq_getElem ws 0 hj8]
      exact h
    rw [stringifyIPv6Address, hz]
    rw [show ws.length + 1 = 9 by omega]
    rw [sfyLoop_shape ws s e hlen hse (by omega)]
    by_cases hs0 : s = 0
    · subst hs0
      by_cases he7e : e = 7
      · subst he7e
        -- B1: the all-zero address, rendered "::"
        have hdrop8 : ws.drop 8 = [] := List.drop_eq_nil_of_le (by omega)
        rw [hdrop8]
        have hws0 : ws = List.replicate 8 0 := by
          apply eq_of_getD
          · simp [hlen]
          · intro j
            by_cases hj : j < 8
            · rw [hrun0 j (by omega) (by omega), getD_replicate_zero]
            · rw [List.getD_eq_default _ _ (by omega), getD_replicate_zero]
          
        rw [show ((ws.take 0).map sfyTok ++
            (if (0 : Nat) ≠ 0 then ([] : List Char) else [':']) ::
              ((if (7 : Nat) = 7 then [([] : List Char)] else []) ++ ([] : List Nat).map sfyTok))
            = [[':'], ([] : List Char)] by simp]
        rw [show joinSep ':' [[':'], ([] : List Char)] = [':', ':'] from rfl]
        rw [show parseIPv6Address [':', ':'] = .ok (List.replicate 8 0) from by rfl]
        rw [hws0]
      · -- B2: leading zero run, rendered "::" ++ tail tokens
        have hTBne : ws.drop (e + 1) ≠ [] := by
          intro h
          have := congrArg List.length h
          simp [hlen] at this
          omega
        have htfB := map_sfyTok_tok_facts (ws.drop (e + 1))
        have hJBne : joinSep ':' ((ws.drop (e + 1)).map sfyTok) ≠ [] :=
          joinSep_map_sfyTok_ne_nil _ hTBne
        have hCPB : hasColonPair (joinSep ':' ((ws.drop (e + 1)).map sfyTok)) = false :=
          hasColonPair_joinSep _ htfB
        have hheadB : (joinSep ':' ((ws.drop (e + 1)).map sfyTok)).head? ≠ some ':' :=
          joinSep_map_sfyTok_head _ hTBne
        have hmapne : (ws.drop (e + 1)).map sfyTok ≠ [] := by
          simpa using hTBne
        have hcs : joinSep ':' ((ws.take 0).map sfyTok ++
            (if (0 : Nat) ≠ 0 then ([] : List Char) else [':']) ::
              ((if e = 7 then [([] : List Char)] else []) ++ (ws.drop (e + 1)).map sfyTok))
            = ':' :: ':' :: joinSep ':' ((ws.drop (e + 1)).map sfyTok) := by
          rw [show ((ws.take 0).map sfyTok ++
              (if (0 : Nat) ≠ 0 then ([] : List Char) else [':']) ::
                ((if e = 7 then [([] : List Char)] else []) ++ (ws.drop (e + 1)).map sfyTok))
              = [[':']] ++ (ws.drop (e + 1)).map sfyTok by simp [he7e]]
          rw [joinSep_append ':' [[':']] _ (by simp) hmapne]
          rfl
        rw [hcs]
        have hforb : (':' :: ':' :: joinSep ':' ((ws.drop (e + 1)).map sfyTok)).any
            isForbidden6 = false := by
          simp only [List.any_cons, Bool.or_eq_false_iff]
          refine ⟨by decide, by decide, ?_⟩
          exact any_forbidden6_joinSep _ (fun t ht c hc => by
            rcases List.mem_map.mp ht with ⟨w, _, rfl⟩
            exact sfyTok_not_forbidden w c hc)
        have hsplitB : splitOnChar ':' (joinSep ':' ((ws.drop (e + 1)).map sfyTok)) =
            (ws.drop (e + 1)).map sfyTok :=
          splitOnChar_joinSep ':' _ hmapne (fun t ht => (htfB t ht).2)
        have hlenB : ((ws.drop (e + 1)).map sfyTok).length = 7 - e := by
          simp [hlen]
        have hcz : countZeroToAdd (':' :: ':' :: joinSep ':' ((ws.drop (e + 1)).map sfyTok)) =
            .ok (8 - ((1 : Int) + ((7 - e : Nat) : Int))) := by
          have h := countZeroToAdd_shape [] (joinSep ':' ((ws.drop (e + 1)).map sfyTok))
            rfl (by simp) hheadB hCPB (Or.inr hJBne)
          simp only [List.nil_append] at h
          rw [h]
          congr 2
          rw [hsplitB, hlenB]
          rfl
        rw [parseIPv6Address, if_neg (by rw [hforb]; simp), hcz, except_bind_ok]
        have hsplitcs : splitOnChar ':' (':' :: ':' :: joinSep ':' ((ws.drop (e + 1)).map sfyTok)) =
            ([] : List Char) :: ([] : List Char) :: (ws.drop (e + 1)).map sfyTok := by
          rw [splitOnChar_cons_sep, splitOnChar_cons_sep, hsplitB]
        rw [hsplitcs]
        rw [if_pos (by simp)]
        have hnb : ((8 - ((1 : Int) + ((7 - e : Nat) : Int))) + 1).toNat = e + 1 := by
          omega
        rw [show (([] : List Char) :: ([] : List Char) :: (ws.drop (e + 1)).map sfyTok).tail
            = ([] : List Char) :: (ws.drop (e + 1)).map sfyTok from rfl]
        rw [hnb]
        rw [fillParts_empty_step]
        have hbB : ∀ x ∈ ws.drop (e + 1), x ≤ 65535 :=
          fun x hx => hb x (List.drop_subset _ _ hx)
        have hfill : fillParts ((ws.drop (e + 1)).map sfyTok) (e + 1)
            (setZeros (List.replicate 8 0) 0 (e + 1)) (0 + (e + 1)) =
            .ok (setSeq (setZeros (List.replicate 8 0) 0 (e + 1)) (e + 1) (ws.drop (e + 1))) := by
          have h := fillParts_map_sfyTok (ws.drop (e + 1)) [] (e + 1)
            (setZeros (List.replicate 8 0) 0 (e + 1)) (0 + (e + 1)) hbB
          rw [List.append_nil] at h
          rw [h]
          rw [show (0 + (e + 1)) = e + 1 by omega]
          rfl
        rw [hfill]
        congr 1
        apply eq_of_getD
        · rw [setSeq_length, setZeros_length]
          simp [hlen]
        · intro j
          have hlenz : (setZeros (List.replicate 8 0) 0 (e + 1)).length = 8 := by
            rw [setZeros_length]
            simp
          by_cases hj1 : j < e + 1
          · rw [setSeq_getD_lt _ _ _ _ hj1, setZeros_getD]
            rw [if_pos (by simp; omega)]
            rw [hrun0 j (by omega) (by omega)]
          · by_cases hj2 : j < 8
            · rw [setSeq_getD_in _ _ _ _ (by omega) (by simp [hlen]; omega) (by omega)]
              rw [getD_drop]
              congr 1
              omega
            · rw [setSeq_getD_ge _ _ _ _ (by simp [hlen]; omega)]
              rw [setZeros_getD, if_neg (by simp; omega)]
              rw [getD_replicate_zero, List.getD_eq_default _ _ (by omega)]
    · -- s > 0: there are tokens before the compressed run
      have hs7 : s ≤ 7 := by omega
      have hlenA : (ws.take s).length = s := by
        simp [hlen]
        omega
      have hTAne : ws.take s ≠ [] := by
        intro h
        have := congrArg List.length h
        rw [hlenA] at this
        simp at this
        omega
      have htfA := map_sfyTok_tok_facts (ws.take s)
      have hmapAne : (ws.take s).map sfyTok ≠ [] := by
        simpa using hTAne
      have hJAne : joinSep ':' ((ws.take s).map sfyTok) ≠ [] :=
        joinSep_map_sfyTok_ne_nil _ hTAne
      have hCPA : hasColonPair (joinSep ':' ((ws.take s).map sfyTok)) = false :=
        hasColonPair_joinSep _ htfA
      have hlastA : (joinSep ':' ((ws.take s).map sfyTok)).getLast? ≠ some ':' :=
        joinSep_getLast?_ne_colon _ hmapAne htfA
      have hsplitA : splitOnChar ':' (joinSep ':' ((ws.take s).map sfyTok)) =
          (ws.take s).map sfyTok :=
        splitOnChar_joinSep ':' _ hmapAne (fun t ht => (htfA t ht).2)
      have hsplitlenA : (splitOnChar ':' (joinSep ':' ((ws.take s).map sfyTok))).length = s := by
        rw [hsplitA]
        simp only [List.length_map]
        exact hlenA
      have hbA : ∀ x ∈ ws.take s, x ≤ 65535 :=
        fun x hx => hb x (List.take_subset _ _ hx)
      have hheadne : ((ws.take s).map sfyTok ++
          (([] : List Char) :: ((if e = 7 then [([] : List Char)] else []) ++
            (ws.drop (e + 1)).map sfyTok))).head? ≠ some ([] : List Char) := by
        rcases hta : (ws.take s).map sfyTok with _ | ⟨t, ts⟩
        · exact absurd hta hmapAne
        · intro hcontra
          simp only [List.cons_append, List.head?_cons, Option.some_inj] at hcontra
          have := head?_map_sfyTok_ne_empty (ws.take s) hTAne
          rw [hta] at this
          simp only [List.head?_cons] at this
          exact this (by rw [hcontra])
      rw [if_pos hs0]
      by_cases he7e : e = 7
      · -- B3: trailing zero run, rendered tokens ++ "::"
        subst he7e
        have hdrop8 : ws.drop 8 = [] := List.drop_eq_nil_of_le (by omega)
        rw [hdrop8, if_pos rfl]
        simp only [List.map_nil, List.append_nil]
        have htoks : ((ws.take s).map sfyTok ++
            (([] : List Char) :: [([] : List Char)])) =
            ((ws.take s).map sfyTok ++ [([] : List Char), ([] : List Char)]) := rfl
        have hforb0 : (joinSep ':' ((ws.take s).map sfyTok ++
            [([] : List Char), ([] : List Char)])).any isForbidden6 = false := by
          apply any_forbidden6_joinSep
          intro t ht c hc
          rcases List.mem_append.mp ht with h | h
          · rcases List.mem_map.mp h with ⟨w, _, rfl⟩
            exact sfyTok_not_forbidden w c hc
          · rcases List.mem_cons.mp h with h | h
            · subst h
              simp at hc
            · simp only [List.mem_singleton] at h
              subst h
              simp at hc
        have hcs : joinSep ':' ((ws.take s).map sfyTok ++
            [([] : List Char), ([] : List Char)]) =
            joinSep ':' ((ws.take s).map sfyTok) ++ ':' :: ':' :: [] := by
          rw [joinSep_append ':' _ _ hmapAne (by simp)]
          rfl
        rw [htoks, hcs]
        have hcz : countZeroToAdd (joinSep ':' ((ws.take s).map sfyTok) ++ ':' :: ':' :: []) =
            .ok (8 - ((s : Int) + 1)) := by
          have h := countZeroToAdd_shape (joinSep ':' ((ws.take s).map sfyTok)) []
            hCPA hlastA (by simp) rfl (Or.inl hJAne)
          rw [h]
          congr 2
          rw [hsplitlenA]
          rfl
        have hforb : (joinSep ':' ((ws.take s).map sfyTok) ++ ':' :: ':' :: []).any
            isForbidden6 = false := by
          rw [← hcs]
          exact hforb0
        rw [parseIPv6Address, if_neg (by rw [hforb]; simp), hcz, except_bind_ok]
        have hsplitcs : splitOnChar ':' (joinSep ':' ((ws.take s).map sfyTok) ++ ':' :: ':' :: []) =
            (ws.take s).map sfyTok ++ [([] : List Char), ([] : List Char)] := by
          rw [← hcs]
          apply splitOnChar_joinSep
          · simp
          · intro t ht
            rcases List.mem_append.mp ht with h | h
            · exact (htfA t h).2
            · rcases List.mem_cons.mp h with h | h
              · subst h
                simp
              · simp only [List.mem_singleton] at h
                subst h
                simp
        rw [hsplitcs]
        rw [if_neg (by
          intro hcontra
          rcases hta : (ws.take s).map sfyTok with _ | ⟨t, ts⟩
          · exact hmapAne hta
          · rw [hta] at hcontra
            simp only [List.cons_append, List.head?_cons, Option.some_inj] at hcontra
            have := head?_map_sfyTok_ne_empty (ws.take s) hTAne
            rw [hta] at this
            simp only [List.head?_cons] at this
            exact this (by rw [hcontra]))]
        have hnb : (8 - ((s : Int) + 1)).toNat = 7 - s := by omega
        rw [hnb]
        have hfillA := fillParts_map_sfyTok (ws.take s) [([] : List Char), ([] : List Char)]
          (7 - s) (List.replicate 8 0) 0 hbA
        rw [hfillA]
        rw [fillParts_empty_step, fillParts_empty_step]
        rw [show (0 + (ws.take s).length) = s by rw [hlenA]; omega]
        show Except.ok (setZeros (setZeros (setSeq (List.replicate 8 0) 0 (ws.take s)) s (7 - s))
          (s + (7 - s)) (7 - s)) = Except.ok ws
        congr 1
        apply eq_of_getD
        · rw [setZeros_length, setZeros_length, setSeq_length]
          simp [hlen]
        · intro j
          have hlM : (setSeq (List.replicate 8 0) 0 (ws.take s)).length = 8 := by
            rw [setSeq_length]
            simp
          have hlZ : (setZeros (setSeq (List.replicate 8 0) 0 (ws.take s)) s (7 - s)).length = 8 := by
            rw [setZeros_length, hlM]
          by_cases hj1 : j < s
          · rw [setZeros_getD, if_neg (by omega), setZeros_getD, if_neg (by omega)]
            rw [setSeq_getD_in _ _ _ _ (by omega) (by rw [hlenA]; omega) (by simp; omega)]
            rw [Nat.sub_zero, getD_take ws s j hj1]
          · by_cases hj2 : j ≤ 7
            · have hws0 : ws.getD j 0 = 0 := hrun0 j (by omega) (by omega)
              rw [hws0]
              by_cases hj3 : j < 7
              · rw [setZeros_getD, if_neg (by omega), setZeros_getD,
                  if_pos (by rw [hlM]; omega)]
              · have hj7 : j = 7 := by omega
                subst hj7
                by_cases hs7e : s < 7
                · rw [setZeros_getD, if_pos (by rw [hlZ]; omega)]
                · have hseq : s = 7 := by omega
                  rw [setZeros_getD, if_neg (by omega), setZeros_getD, if_neg (by omega)]
                  rw [setSeq_getD_ge _ _ _ _ (by rw [hlenA]; omega)]
                  rw [getD_replicate_zero]
            · rw [setZeros_getD, if_neg (by omega), setZeros_getD, if_neg (by omega)]
              rw [setSeq_getD_ge _ _ _ _ (by rw [hlenA]; omega)]
              rw [getD_replicate_zero, List.getD_eq_default _ _ (by omega)]
      · -- B4: zero run strictly inside the address
        have hTBne : ws.drop (e + 1) ≠ [] := by
          intro h
          have := congrArg List.length h
          simp [hlen] at this
          omega
        have htfB := map_sfyTok_tok_facts (ws.drop (e + 1))
        have hmapBne : (ws.drop (e + 1)).map sfyTok ≠ [] := by
          simpa using hTBne
        have hJBne : joinSep ':' ((ws.drop (e + 1)).map sfyTok) ≠ [] :=
          joinSep_map_sfyTok_ne_nil _ hTBne
        have hCPB : hasColonPair (joinSep ':' ((ws.drop (e + 1)).map sfyTok)) = false :=
          hasColonPair_joinSep _ htfB
        have hheadB : (joinSep ':' ((ws.drop (e + 1)).map sfyTok)).head? ≠ some ':' :=
          joinSep_map_sfyTok_head _ hTBne
        have hsplitB : splitOnChar ':' (joinSep ':' ((ws.drop (e + 1)).map sfyTok)) =
            (ws.drop (e + 1)).map sfyTok :=
          splitOnChar_joinSep ':' _ hmapBne (fun t ht => (htfB t ht).2)
        have hsplitlenB : (splitOnChar ':' (joinSep ':' ((ws.drop (e + 1)).map sfyTok))).length
            = 7 - e := by
          rw [hsplitB]
          simp [hlen]
        rw [if_neg he7e]
        rw [show (([] : List Char) :: (([] : List (List Char)) ++
            (ws.drop (e + 1)).map sfyTok)) =
          ([([] : List Char)] ++ (ws.drop (e + 1)).map sfyTok) from rfl]
        have hforb0 : (joinSep ':' ((ws.take s).map sfyTok ++
            ([([] : List Char)] ++ (ws.drop (e + 1)).map sfyTok))).any isForbidden6 = false := by
          apply any_forbidden6_joinSep
          intro t ht c hc
          rcases List.mem_append.mp ht with h | h
          · rcases List.mem_map.mp h with ⟨w, _, rfl⟩
            exact sfyTok_not_forbidden w c hc
          · rcases List.mem_append.mp h with h | h
            · simp only [List.mem_singleton] at h
              subst h
              simp at hc
            · rcases List.mem_map.mp h with ⟨w, _, rfl⟩
              exact sfyTok_not_forbidden w c hc
        have hcs : joinSep ':' ((ws.take s).map sfyTok ++
            ([([] : List Char)] ++ (ws.drop (e + 1)).map sfyTok)) =
            joinSep ':' ((ws.take s).map sfyTok) ++
              ':' :: ':' :: joinSep ':' ((ws.drop (e + 1)).map sfyTok) := by
          rw [joinSep_append ':' _ _ hmapAne (by simp)]
          rw [joinSep_append ':' [([] : List Char)] _ (by simp) hmapBne]
          rfl
        rw [hcs]
        have hforb : (joinSep ':' ((ws.take s).map sfyTok) ++
            ':' :: ':' :: joinSep ':' ((ws.drop (e + 1)).map sfyTok)).any isForbidden6 = false := by
          rw [← hcs]
          exact hforb0
        have hcz : countZeroToAdd (joinSep ':' ((ws.take s).map sfyTok) ++
            ':' :: ':' :: joinSep ':' ((ws.drop (e + 1)).map sfyTok)) =
            .ok (8 - ((s : Int) + ((7 - e : Nat) : Int))) := by
          have h := countZeroToAdd_shape (joinSep ':' ((ws.take s).map sfyTok))
            (joinSep ':' ((ws.drop (e + 1)).map sfyTok))
            hCPA hlastA hheadB hCPB (Or.inl hJAne)
          rw [hsplitlenA, hsplitlenB] at h
          exact h
        rw [parseIPv6Address, if_neg (by rw [hforb]; simp), hcz, except_bind_ok]
        have hsplitcs : splitOnChar ':' (joinSep ':' ((ws.take s).map sfyTok) ++
            ':' :: ':' :: joinSep ':' ((ws.drop (e + 1)).map sfyTok)) =
            (ws.take s).map sfyTok ++ ([([] : List Char)] ++ (ws.drop (e + 1)).map sfyTok) := by
          rw [← hcs]
          apply splitOnChar_joinSep
          · simp
          · intro t ht
            rcases List.mem_append.mp ht with h | h
            · exact (htfA t h).2
            · rcases List.mem_append.mp h with h | h
              · simp only [List.mem_singleton] at h
                subst h
                simp
              · exact (htfB t h).2
        rw [hsplitcs]
        rw [if_neg (by
          intro hcontra
          rcases hta : (ws.take s).map sfyTok with _ | ⟨t, ts⟩
          · exact hmapAne hta
          · rw [hta] at hcontra
            simp only [List.cons_append, List.head?_cons, Option.some_inj] at hcontra
            have := head?_map_sfyTok_ne_empty (ws.take s) hTAne
            rw [hta] at this
            simp only [List.head?_cons] at this
            exact this (by rw [hcontra]))]
        have hnb : (8 - ((s : Int) + ((7 - e : Nat) : Int))).toNat = e + 1 - s := by omega
        rw [hnb]
        have hbB : ∀ x ∈ ws.drop (e + 1), x ≤ 65535 :=
          fun x hx => hb x (List.drop_subset _ _ hx)
        have hfillA := fillParts_map_sfyTok (ws.take s)
          ([([] : List Char)] ++ (ws.drop (e + 1)).map sfyTok)
          (e + 1 - s) (List.replicate 8 0) 0 hbA
        rw [hfillA]
        rw [show ([([] : List Char)] ++ (ws.drop (e + 1)).map sfyTok) =
          (([] : List Char) :: (ws.drop (e + 1)).map sfyTok) from rfl]
        rw [fillParts_empty_step]
        rw [show (0 + (ws.take s).length) = s by rw [hlenA]; omega]
        rw [show s + (e + 1 - s) = e + 1 by omega]
        have hfillB := fillParts_map_sfyTok (ws.drop (e + 1)) [] (e + 1 - s)
          (setZeros (setSeq (List.replicate 8 0) 0 (ws.take s)) s (e + 1 - s)) (e + 1) hbB
        rw [List.append_nil] at hfillB
        rw [hfillB]
        show Except.ok (setSeq (setZeros (setSeq (List.replicate 8 0) 0 (ws.take s)) s (e + 1 - s))
          (e + 1) (ws.drop (e + 1))) = Except.ok ws
        congr 1
        apply eq_of_getD
        · rw [setSeq_length, setZeros_length, setSeq_length]
          simp [hlen]
        · intro j
          have hlM : (setSeq (List.replicate 8 0) 0 (ws.take s)).length = 8 := by
            rw [setSeq_length]
            simp
          have hlZ : (setZeros (setSeq (List.replicate 8 0) 0 (ws.take s)) s (e + 1 - s)).length
              = 8 := by
            rw [setZeros_length, hlM]
          by_cases hj1 : j < s
          · rw [setSeq_getD_lt _ _ _ _ (by omega)]
            rw [setZeros_getD, if_neg (by omega)]
            rw [setSeq_getD_in _ _ _ _ (by omega) (by rw [hlenA]; omega) (by simp; omega)]
            rw [Nat.sub_zero, getD_take ws s j hj1]
          · by_cases hj2 : j ≤ e
            · rw [setSeq_getD_lt _ _ _ _ (by omega)]
              rw [setZeros_getD, if_pos (by rw [hlM]; omega)]
              rw [hrun0 j (by omega) (by omega)]
            · by_cases hj3 : j < 8
              · rw [setSeq_getD_in _ _ _ _ (by omega) (by simp [hlen]; omega) (by rw [hlZ]; omega)]
                rw [getD_drop]
                congr 1
                omega
              · rw [setSeq_getD_ge _ _ _ _ (by simp [hlen]; omega)]
                rw [setZeros_getD, if_neg (by omega)]
                rw [setSeq_getD_ge _ _ _ _ (by rw [hlenA]; omega)]
                rw [getD_replicate_zero, List.getD_eq_default _ _ (by omega)]

/-! ## Arbitrary token lemmas (for claims about parser acceptance) -/

/-- Value of an all-hex-digit token, as `parseInt(t, 16)` computes it. -/
def hexTokVal (t : List Char) : Nat :=
  digitsVal 16 (t.map (fun c => (hexDigitVal? c).getD 0))

/-- Value of an all-decimal-digit token, as `Number(t)` computes it. -/
def decTokVal (t : List Char) : Nat :=
  digitsVal 10 (t.map (fun c => (digitValB? 10 c).getD 0))

theorem hexPrefixValues_of_all (t : List Char)
    (h : ∀ c ∈ t, (hexDigitVal? c).isSome) :
    hexPrefixValues t = t.map (fun c => (hexDigitVal? c).getD 0) := by
  induction t with
  | nil => rfl
  | cons c cs ih =>
    rw [hexPrefixValues]
    rcases hv : hexDigitVal? c with _ | d
    · have := h c (List.mem_cons_self c cs)
      rw [hv] at this
      simp at this
    · rw [ih (fun x hx => h x (List.mem_cons_of_mem c hx))]
      simp [hv]

theorem parseIntHex_of_hex (t : List Char) (hne : t ≠ [])
    (h : ∀ c ∈ t, (hexDigitVal? c).isSome) :
    parseIntHex t = some (hexTokVal t) := by
  rw [parseIntHex, hexPrefixValues_of_all t h]
  rcases t with _ | ⟨c, cs⟩
  · exact absurd rfl hne
  · rfl

theorem jsNumberNat_of_digits (t : List Char) (hne : t ≠ [])
    (h : ∀ c ∈ t, (digitValB? 10 c).isSome) :
    jsNumberNat? t = some (decTokVal t) := by
  rw [jsNumberNat?]
  rw [trimWs_id _ (fun c hc => decDigit_not_ws c (h c hc))]
  rw [if_neg hne, if_neg, if_neg, if_neg]
  · rw [radixVal?, if_pos ⟨hne, by rw [List.all_eq_true]; exact h⟩]
    rfl
  all_goals
    push_neg
    constructor <;> exact take_two_ne_of_digits _ _ h (by decide)

theorem mem_of_mem_splitOnChar (sep : Char) (cs : List Char) :
    ∀ t ∈ splitOnChar sep cs, ∀ c ∈ t, c ∈ cs ∧ c ≠ sep := by
  induction cs with
  | nil =>
    intro t ht c hc
    simp only [splitOnChar, List.mem_singleton] at ht
    subst ht
    simp at hc
  | cons x xs ih =>
    intro t ht c hc
    by_cases hx : x = sep
    · subst hx
      rw [splitOnChar_cons_sep] at ht
      rcases List.mem_cons.mp ht with h | h
      · subst h
        simp at hc
      · have := ih t h c hc
        exact ⟨List.mem_cons_of_mem x this.1, this.2⟩
    · rcases hs : splitOnChar sep xs with _ | ⟨u, us⟩
      · exact absurd hs (splitOnChar_ne_nil sep xs)
      · have hsplit : splitOnChar sep (x :: xs) = (x :: u) :: us := by
          rw [splitOnChar, hs]
          show (if x = sep then [] :: u :: us else (x :: u) :: us) = (x :: u) :: us
          rw [if_neg hx]
        rw [hsplit] at ht
        rcases List.mem_cons.mp ht with h | h
        · subst h
          rcases List.mem_cons.mp hc with h | h
          · subst h
            exact ⟨List.mem_cons_self c xs, hx⟩
          · have := ih u (by rw [hs]; exact List.mem_cons_self u us) c h
            exact ⟨List.mem_cons_of_mem x this.1, this.2⟩
        · have := ih t (by rw [hs]; exact List.mem_cons_of_mem u h) c hc
          exact ⟨List.mem_cons_of_mem x this.1, this.2⟩

theorem parseIPv4Tokens_digit_toks (toks : List (List Char))
    (h : ∀ t ∈ toks, t ≠ [] ∧ (∀ c ∈ t, (digitValB? 10 c).isSome) ∧ decTokVal t ≤ 255) :
    parseIPv4Tokens toks = .ok (toks.map decTokVal) := by
  induction toks with
  | nil => rfl
  | cons t ts ih =>
    obtain ⟨hne, hdig, hval⟩ := h t (List.mem_cons_self t ts)
    simp only [parseIPv4Tokens, jsNumberNat_of_digits t hne hdig,
      ih (fun u hu => h u (List.mem_cons_of_mem t hu))]
    rw [if_neg (by omega)]
    rfl

theorem fillParts_hex_toks (ts : List (List Char)) :
    ∀ (ps : List (List Char)) (nb : Nat) (res : List Nat) (idx : Nat),
    (∀ t ∈ ts, t ≠ [] ∧ (∀ c ∈ t, (hexDigitVal? c).isSome) ∧ hexTokVal t ≤ 65535) →
    fillParts (ts ++ ps) nb res idx =
      fillParts ps nb (setSeq res idx (ts.map hexTokVal)) (idx + ts.length) := by
  induction ts with
  | nil => intro ps nb res idx _; rfl
  | cons t ts ih =>
    intro ps nb res idx h
    obtain ⟨hne, hhex, hval⟩ := h t (List.mem_cons_self t ts)
    rw [List.cons_append, fillParts]
    rw [if_neg (by simpa using hne)]
    rw [parseIntHex_of_hex t hne hhex]
    show (if hexTokVal t > 65535 then Except.error AddrErr.incorrectItem
        else fillParts (ts ++ ps) nb (res.set idx (hexTokVal t)) (idx + 1)) =
      fillParts ps nb (setSeq res idx ((t :: ts).map hexTokVal)) (idx + (t :: ts).length)
    rw [if_neg (by omega)]
    rw [ih ps nb _ (idx + 1) (fun u hu => h u (List.mem_cons_of_mem t hu))]
    rw [List.map_cons, setSeq]
    congr 1
    simp only [List.length_cons]
    omega

theorem idxOfSub_percent_none (s : List Char) (h : '%' ∉ s) :
    idxOfSub ['%'] s = none := by
  induction s with
  | nil => simp [idxOfSub]
  | cons c cs ih =>
    have hc : c ≠ '%' := fun hcp => h (hcp ▸ List.mem_cons_self c cs)
    have hpf : hasPrefixL ['%'] (c :: cs) = false := by
      have hne : ¬ ('%' = c) := fun hcp => hc hcp.symm
      simp [hasPrefixL, hne]
    rw [idxOfSub, hpf]
    simp [ih (fun hm => h (List.mem_cons_of_mem c hm))]

/-! ## Submasks: block tables, canonical arrays, validation (`const.ts`,
`part_008`, `submask/functions.ts`, `part_011`) -/

/-- `SUBMASK_POSSIBLE_BLOCKS[4]` from `const.ts`. -/
def possibleBlocks4 : List Nat := [0, 128, 192, 224, 240, 248, 252, 254, 255]

/-- `SUBMASK_POSSIBLE_BLOCKS[6]` from `const.ts`. -/
def possibleBlocks6 : List Nat :=
  [0, 0x8000, 0xC000, 0xE000, 0xF000, 0xF800, 0xFC00, 0xFE00, 0xFF00,
   0xFF80, 0xFFC0, 0xFFE0, 0xFFF0, 0xFFF8, 0xFFFC, 0xFFFE, 0xFFFF]

/-- Outcome of `isCorrectSubmask` (`part_008`): `valid: true` or the `type`
of the `IncorrectAddressError` returned as `reason`. -/
inductive CheckRes
  | valid
  | incorrectFormat
  | incorrectItem
  | hasOneAfterZero
deriving DecidableEq, Repr

/-- The item loop of `isCorrectSubmask`: per-item range check, then the
ones-then-zeros scan driven by the `hasZero` flag. -/
def icsGo (blocks : List Nat) (itemMax : Int) : List Int → Bool → CheckRes
  | [], _ => .valid
  | item :: rest, true =>
    if item < 0 ∨ item > itemMax then .incorrectItem
    else if item ≠ 0 then .hasOneAfterZero
    else icsGo blocks itemMax rest true
  | item :: rest, false =>
    if item < 0 ∨ item > itemMax then .incorrectItem
    else if item = itemMax then icsGo blocks itemMax rest false
    else if item ∈ blocks.map (fun n : Nat => (n : Int)) then icsGo blocks itemMax rest true
    else .hasOneAfterZero

/-- `isCorrectSubmask(4, items)` over integer items (JavaScript numbers that
fail `Number.isInteger` are outside this model). -/
def isCorrectSubmask4 (items : List Int) : CheckRes :=
  if items.length ≠ 4 then .incorrectFormat else icsGo possibleBlocks4 255 items false

/-- `isCorrectSubmask(6, items)`. -/
def isCorrectSubmask6 (items : List Int) : CheckRes :=
  if items.length ≠ 8 then .incorrectFormat else icsGo possibleBlocks6 65535 items false

/-- Loop of `createSubmaskArray` (`const.ts`): with `n` slots left it writes
`possibleBlocks[min remaining bitsByItem]`, decrements the remaining bit
count, and breaks (leaving the typed array's zeros) when it reaches zero. -/
def csaGo (blocks : List Nat) (bitsByItem : Nat) : Nat → Nat → List Nat
  | 0, _ => []
  | n + 1, remaining =>
    blocks.getD (min remaining bitsByItem) 0 ::
      (if remaining - min remaining bitsByItem = 0 then List.replicate n 0
       else csaGo blocks bitsByItem n (remaining - min remaining bitsByItem))

/-- `createSubmaskArray(4, cidr)`. -/
def createSubmaskArray4 (cidr : Nat) : List Nat := csaGo possibleBlocks4 8 4 cidr

/-- `createSubmaskArray(6, cidr)`. -/
def createSubmaskArray6 (cidr : Nat) : List Nat := csaGo possibleBlocks6 16 8 cidr

/-- Errors raised by the submask generation functions: the `ContextError`s
(`invalid-cidr`, `invalid-hosts-number`) and the bare `new Error()`
fallthrough after the scan. -/
inductive SmErr
  | invalidCidr
  | invalidHostsNumber
  | genericError
deriving DecidableEq, Repr

/-- `generateSubmaskFromCidr(4, cidr)`: `CIDR_TO_MASK[4][cidr]` is defined
exactly for integer `cidr` in `[0, 32]`. -/
def generateSubmaskFromCidr4 (cidr : Nat) : Except SmErr (List Nat) :=
  if cidr ≤ 32 then .ok (createSubmaskArray4 cidr) else .error .invalidCidr

/-- `generateSubmaskFromCidr(6, cidr)`. -/
def generateSubmaskFromCidr6 (cidr : Nat) : Except SmErr (List Nat) :=
  if cidr ≤ 128 then .ok (createSubmaskArray6 cidr) else .error .invalidCidr

/-- JavaScript `ToInt32`. -/
def toInt32 (x : Int) : Int :=
  if x.emod (2 ^ 32) < 2 ^ 31 then x.emod (2 ^ 32) else x.emod (2 ^ 32) - 2 ^ 32

/-- `getSizeFromCidr(4, cidr)`: the 32-bit `1 << (32 - cidr)`; the shift
count is reduced modulo 32 and the result is a signed 32-bit value. -/
def getSizeFromCidr4 (cidr : Nat) : Int :=
  toInt32 ((2 : Int) ^ ((((32 : Int) - cidr).emod 32).toNat))

/-- `getSizeFromCidr(6, cidr)`: the exact bigint `1n << (128n - cidrn)`. -/
def getSizeFromCidr6 (cidr : Nat) : Int := (2 : Int) ^ (128 - cidr)

/-- Record returned by `generateSubmaskFromHosts`; `fromHosts` stores its
fields as the `_size` / `_hosts` / `_cidr` known properties of the new
submask, so the object's getters return them unchanged. -/
structure GenRes where
  submask : List Nat
  hosts : Int
  size : Int
  cidr : Nat
deriving DecidableEq, Repr

/-- The `for (let cidr = totalBits; cidr >= 0; cidr--)` scan of
`generateSubmaskFromHosts`, parameterised like the source by the version's
size function, reserved-host difference and mask table. -/
def genLoop (sizeF : Nat → Int) (diff : Int) (maskF : Nat → Except SmErr (List Nat))
    (hosts : Int) : Nat → Except SmErr GenRes
  | 0 =>
    if sizeF 0 - diff ≥ hosts then
      (maskF 0).map (fun sm => ⟨sm, sizeF 0 - diff, sizeF 0, 0⟩)
    else .error .genericError
  | c + 1 =>
    if sizeF (c + 1) - diff ≥ hosts then
      (maskF (c + 1)).map (fun sm => ⟨sm, sizeF (c + 1) - diff, sizeF (c + 1), c + 1⟩)
    else genLoop sizeF diff maskF hosts c

/-- `generateSubmaskFromHosts(4, hosts)`: `maxHosts = Number(1n << 32n)`,
`diff = 2`, scan from 32 down to 0. -/
def generateSubmaskFromHosts4 (hosts : Int) : Except SmErr GenRes :=
  if hosts < 0 ∨ hosts > 2 ^ 32 then .error .invalidHostsNumber
  else genLoop getSizeFromCidr4 2 generateSubmaskFromCidr4 hosts 32

/-- `generateSubmaskFromHosts(6, hosts)`: `maxHosts = 1n << 128n`,
`diff = 1n`, scan from 128 down to 0. -/
def generateSubmaskFromHosts6 (hosts : Int) : Except SmErr GenRes :=
  if hosts < 0 ∨ hosts > 2 ^ 128 then .error .invalidHostsNumber
  else genLoop getSizeFromCidr6 1 generateSubmaskFromCidr6 hosts 128

/-- `getHostsFromSizeAndCidr(4, size, cidr)`. -/
def getHostsFromSizeAndCidr4 (size : Int) (cidr : Nat) : Int :=
  if cidr = 32 then 1 else if cidr = 31 then 2 else max 0 (size - 2)

/-- `getHostsFromSizeAndCidr(6, size, cidr)`. -/
def getHostsFromSizeAndCidr6 (size : Int) (cidr : Nat) : Int :=
  if cidr = 128 then 1 else if cidr = 127 then 0 else if size > 0 then size - 1 else 0

/-- The `hosts` getter of `Submask` when neither `_hosts` nor `_size` was
preset (constructions via `fromCidr`, `fromString`, `fromUint`, ...):
`getHostsFromSizeAndCidr(version, getSizeFromCidr(version, cidr), cidr)`. -/
def submaskHostsAttr4 (cidr : Nat) : Int :=
  getHostsFromSizeAndCidr4 (getSizeFromCidr4 cidr) cidr

/-- V6 counterpart of `submaskHostsAttr4`. -/
def submaskHostsAttr6 (cidr : Nat) : Int :=
  getHostsFromSizeAndCidr6 (getSizeFromCidr6 cidr) cidr

/-- `IPv4Submask.fromHosts`, exposing the stored known properties. -/
def IPv4Submask_fromHosts (hosts : Int) : Except SmErr GenRes :=
  generateSubmaskFromHosts4 hosts

/-- `IPv6Submask.fromHosts`, exposing the stored known properties. -/
def IPv6Submask_fromHosts (hosts : Int) : Except SmErr GenRes :=
  generateSubmaskFromHosts6 hosts

/-! ## Integer conversions (`uint.ts`) and `fromUint` constructors -/

/-- JavaScript `ToUint32` (the `>>> 0` coercion). -/
def jsToUint32 (x : Int) : Nat := (x.emod (2 ^ 32)).toNat

/-- `UintToArray(4, uint)` from `uint.ts`. -/
def uintToArray4 (u : Int) : List Nat :=
  [jsToUint32 u >>> 24 &&& 255, jsToUint32 u >>> 16 &&& 255,
   jsToUint32 u >>> 8 &&& 255, jsToUint32 u &&& 255]

/-- Loop of `UintToArray(6, value)`: fills words 7 down to 0 with
`bigInt & 0xFFFFn`, arithmetically shifting right by 16 bits each step. -/
def uintToArray6Go : Nat → Int → List Nat
  | 0, _ => []
  | n + 1, v => uintToArray6Go n (v.fdiv 65536) ++ [(v.fmod 65536).toNat]

/-- `UintToArray(6, value)`. -/
def uintToArray6 (u : Int) : List Nat := uintToArray6Go 8 u

/-- The `Submask` constructor for V4 items: with `check: true` it runs
`isCorrectSubmask` through `createAddressArray` and throws the reported
reason; with `check: false` it wraps the items without validation. -/
def submaskCtor4 (items : List Nat) (check : Bool) : Except CheckRes (List Nat) :=
  if check then
    match isCorrectSubmask4 (items.map (fun n : Nat => (n : Int))) with
    | .valid => .ok items
    | e => .error e
  else .ok items

/-- The `Submask` constructor for V6 items. -/
def submaskCtor6 (items : List Nat) (check : Bool) : Except CheckRes (List Nat) :=
  if check then
    match isCorrectSubmask6 (items.map (fun n : Nat => (n : Int))) with
    | .valid => .ok items
    | e => .error e
  else .ok items

/-- `IPv4Submask.fromUint`: constructs with `check: false`. -/
def IPv4Submask_fromUint (u : Int) : Except CheckRes (List Nat) :=
  submaskCtor4 (uintToArray4 u) false

/-- `IPv6Submask.fromUint`: constructs with `check: true`. -/
def IPv6Submask_fromUint (u : Int) : Except CheckRes (List Nat) :=
  submaskCtor6 (uintToArray6 u) true

/-! ## Tunneling (`tunneling.ts`) -/

/-- `isCorrectAddress(4, items)` followed by the `Uint8Array` wrap: the
default `check` path of `new IPv4Address(items)`. -/
def mkIPv4 (items : List Nat) : Except AddrErr (List Nat) :=
  if items.length ≠ 4 then .error .incorrectFormat
  else if items.any (fun x => 255 < x) then .error .incorrectItem
  else .ok items

/-- `copyIPv6ToIPv4Address(ipv6, index, operation)`. -/
def copyIPv6ToIPv4Address (v6 : List Nat) (idx : Nat) (op : Nat → Nat) :
    Except AddrErr (List Nat) :=
  mkIPv4 [op (v6.getD idx 0) >>> 8, op (v6.getD idx 0) &&& 0xff,
    op (v6.getD (idx + 1) 0) >>> 8, op (v6.getD (idx + 1) 0) &&& 0xff]

/-- `copyIPv4ToIPv6AddressOperation`. -/
def copyWordOp (a b : Nat) : Nat := (a <<< 8) ||| b

/-- `copyIPv4ToIPv6Address`: writes words `idx` and `idx+1` of the
`Uint16Array` (stores are masked to 16 bits). -/
def copyIPv4ToIPv6Address (v4 v6 : List Nat) (idx : Nat) (op : Nat → Nat → Nat) :
    List Nat :=
  (v6.set idx (op (v4.getD 0 0) (v4.getD 1 0) % 65536)).set (idx + 1)
    (op (v4.getD 2 0) (v4.getD 3 0) % 65536)

/-- `TunnelingMode.fillPrefix`: `Uint16Array(8)` with the prefix set at 0. -/
def fillPrefixWords (p : List Nat) : List Nat := setSeq (List.replicate 8 0) 0 p

/-- `Mapped.isValid`. -/
def Mapped_isValid (v6 : List Nat) : Bool :=
  (v6.take 5).all (fun w => w == 0) && (v6.getD 5 0 == 0xffff)

/-- `Mapped.toIPv4`. -/
def Mapped_toIPv4 (v6 : List Nat) : Except AddrErr (List Nat) :=
  if Mapped_isValid v6 then copyIPv6ToIPv4Address v6 6 (fun w => w)
  else .error .invalidTunneling

/-- `Mapped.toIPv6` (array of the returned `IPv6Address`). -/
def Mapped_toIPv6 (v4 : List Nat) : List Nat :=
  copyIPv4ToIPv6Address v4 (fillPrefixWords [0, 0, 0, 0, 0, 0xffff]) 6 copyWordOp

/-- `SixToFour.isValid`. -/
def SixToFour_isValid (v6 : List Nat) : Bool := v6.getD 0 0 == 0x2002

/-- `SixToFour.toIPv6`. -/
def SixToFour_toIPv6 (v4 : List Nat) : List Nat :=
  copyIPv4ToIPv6Address v4 (fillPrefixWords [0x2002]) 1 copyWordOp

/-- `SixToFour.toIPv4`. -/
def SixToFour_toIPv4 (v6 : List Nat) : Except AddrErr (List Nat) :=
  if SixToFour_isValid v6 then copyIPv6ToIPv4Address v6 1 (fun w => w)
  else .error .invalidTunneling

/-- `TeredoDatas`: server address bytes, flags and obfuscated port input. -/
structure TeredoDatas where
  ipv4 : List Nat
  flags : Int
  port : Int

/-- `Teredo.isValid`. -/
def Teredo_isValid (v6 : List Nat) : Bool :=
  v6.getD 0 0 == 0x2001 && v6.getD 1 0 == 0

/-- `Teredo.toIPv4`: client words 6..7 are de-obfuscated with `^ 0xFFFF`. -/
def Teredo_toIPv4 (v6 : List Nat) : Except AddrErr (List Nat) :=
  if Teredo_isValid v6 then copyIPv6ToIPv4Address v6 6 (fun w => w ^^^ 0xFFFF)
  else .error .invalidTunneling

/-- `Teredo.toIPv6(ipv4, params)`: flag and port range gates, then prefix
`2001:0`, server words, flags word, obfuscated port and obfuscated client. -/
def Teredo_toIPv6 (v4 : List Nat) (params : TeredoDatas) : Except AddrErr (List Nat) :=
  if params.flags < 0 ∨ params.flags > 65536 then .error .teredoIncorrectFlags
  else if params.port < 0 ∨ params.port > 65536 then .error .teredoIncorrectPort
  else
    .ok (copyIPv4ToIPv6Address v4
      (((copyIPv4ToIPv6Address params.ipv4 (fillPrefixWords [0x2001, 0]) 2
          copyWordOp).set 4 (params.flags.toNat % 65536)).set 5
        ((params.port.toNat ^^^ 0xFFFF) % 65536))
      6 (fun a b => copyWordOp a b ^^^ 0xFFFF))

/-! ## Context operations (`operation.ts`, `context.ts`) -/

/-- Element-wise `and` from `operation.ts`, stored into a fresh `Uint8Array`. -/
def and4 (a b : List Nat) : List Nat :=
  setSeq (List.replicate 4 0) 0 (List.zipWith (fun x y => (x &&& y) % 256) a b)

/-- Element-wise `or` from `operation.ts`. -/
def or4 (a b : List Nat) : List Nat :=
  setSeq (List.replicate 4 0) 0 (List.zipWith (fun x y => (x ||| y) % 256) a b)

/-- `not` from `operation.ts`: `~a[i]` stored into a `Uint8Array`. -/
def not4 (a : List Nat) : List Nat :=
  a.map (fun x => ((-(x : Int) - 1).emod 256).toNat)

/-- `arrayToUint(4, array)`: big-endian 32-bit pack with the `>>> 0`
coercion. -/
def arrayToUint4 (a : List Nat) : Nat :=
  ((a.getD 0 0) <<< 24 ||| (a.getD 1 0) <<< 16 ||| (a.getD 2 0) <<< 8 ||| a.getD 3 0)
    % 2 ^ 32

/-- `Context.network` array: `and(address, submask)`. -/
def ipv4Network (addr submask : List Nat) : List Nat := and4 addr submask

/-- `IPv4Context.broadcast` array: `or(address, not(submask))`. -/
def ipv4Broadcast (addr submask : List Nat) : List Nat := or4 addr (not4 submask)

/-- `Context.firstHost` array: `createAddressFromUint(network.toUint() + 1)`. -/
def ipv4FirstHost (addr submask : List Nat) : List Nat :=
  uintToArray4 ((arrayToUint4 (ipv4Network addr submask) : Int) + 1)

/-- `IPv4Context.lastHost` array: `IPv4Address.fromUint(broadcast.toUint() - 1)`. -/
def ipv4LastHost (addr submask : List Nat) : List Nat :=
  uintToArray4 ((arrayToUint4 (ipv4Broadcast addr submask) : Int) - 1)

/-- `Context.includes`: compares `arrayToUint(and(candidate, submask))` with
the network integer. -/
def ipv4Includes (addr submask cand : List Nat) : Bool :=
  arrayToUint4 (and4 cand submask) == arrayToUint4 (ipv4Network addr submask)

/-- `Context.isHost`: word-wise comparison of the candidate against
`firstHost` and `lastHost`. -/
def ipv4IsHost (addr submask cand : List Nat) : Bool :=
  (List.range 4).all (fun i =>
    !(decide (cand.getD i 0 > (ipv4LastHost addr submask).getD i 0) ||
      decide (cand.getD i 0 < (ipv4FirstHost addr submask).getD i 0)))

deriving instance DecidableEq for Except

/-! ## Submask validation: helper lemmas -/

/-- After a non-all-ones block has been seen, only zeros are accepted. -/
theorem icsGo_true_valid (blocks : List Nat) (itemMax : Int) :
    ∀ items : List Int, icsGo blocks itemMax items true = .valid →
      items = List.replicate items.length 0 := by
  intro items
  induction items with
  | nil => intro _; rfl
  | cons item rest ih =>
    intro h
    rw [icsGo] at h
    by_cases hr : item < 0 ∨ item > itemMax
    · rw [if_pos hr] at h
      simp at h
    · rw [if_neg hr] at h
      by_cases h0 : item ≠ 0
      · rw [if_pos h0] at h
        simp at h
      · rw [if_neg h0] at h
        push_neg at h0
        subst h0
        rw [List.length_cons, List.replicate_succ]
        exact congrArg _ (ih h)

/-- Zeros always pass the `hasZero` phase when the item maximum is
nonnegative. -/
theorem icsGo_replicate_zero (blocks : List Nat) (itemMax : Int)
    (hmax : 0 ≤ itemMax) :
    ∀ n, icsGo blocks itemMax (List.replicate n 0) true = .valid := by
  intro n
  induction n with
  | zero => rfl
  | succ n ih =>
    rw [List.replicate_succ, icsGo, if_neg (by omega), if_neg (by simp)]
    exact ih

/-- Shape of the lists accepted by the `hasZero = false` phase: all-ones
blocks, optionally followed by one listed partial block and zeros. -/
theorem icsGo_false_valid (blocks : List Nat) (itemMax : Int) :
    ∀ items : List Int, icsGo blocks itemMax items false = .valid →
      (∃ n, items = List.replicate n itemMax) ∨
      (∃ n b z, b ∈ blocks.map (fun k : Nat => (k : Int)) ∧ b ≠ itemMax ∧
        items = List.replicate n itemMax ++ b :: List.replicate z 0) := by
  intro items
  induction items with
  | nil => exact fun _ => .inl ⟨0, rfl⟩
  | cons item rest ih =>
    intro h
    rw [icsGo] at h
    by_cases hr : item < 0 ∨ item > itemMax
    · rw [if_pos hr] at h
      simp at h
    · rw [if_neg hr] at h
      by_cases hm : item = itemMax
      · rw [if_pos hm] at h
        rcases ih h with ⟨n, hn⟩ | ⟨n, b, z, hb, hbne, heq⟩
        · exact .inl ⟨n + 1, by rw [List.replicate_succ, hm, hn]⟩
        · exact .inr ⟨n + 1, b, z, hb, hbne, by
            rw [List.replicate_succ, List.cons_append, hm, heq]⟩
      · rw [if_neg hm] at h
        by_cases hbk : item ∈ blocks.map (fun n : Nat => (n : Int))
        · rw [if_pos hbk] at h
          have hrest := icsGo_true_valid blocks itemMax rest h
          exact .inr ⟨0, item, rest.length, hbk, hm, by
            rw [List.replicate_zero, List.nil_append]
            exact congrArg _ hrest⟩
        · rw [if_neg hbk] at h
          simp at h

/-- Converts a decidable search over `0..m` into the bounded existential. -/
theorem exists_le_of_mem_range_map {m : Nat} {F : Nat → List Int} {x : List Int}
    (h : x ∈ (List.range (m + 1)).map F) : ∃ c, c ≤ m ∧ x = F c := by
  rcases List.mem_map.mp h with ⟨c, hc, hcx⟩
  exact ⟨c, by have := List.mem_range.mp hc; omega, hcx.symm⟩

/-- `isCorrectSubmask(4, ·)` accepts exactly the 33 canonical prefix-mask
arrays `CIDR_TO_MASK[4]`. -/
theorem isCorrectSubmask4_valid_iff (items : List Int) :
    isCorrectSubmask4 items = .valid ↔
      ∃ c, c ≤ 32 ∧ items = (createSubmaskArray4 c).map (fun n : Nat => (n : Int)) := by
  constructor
  · intro h
    have hlen : items.length = 4 := by
      by_contra hne
      rw [isCorrectSubmask4, if_pos hne] at h
      simp at h
    rw [isCorrectSubmask4, if_neg (by simp [hlen])] at h
    rcases icsGo_false_valid _ _ items h with ⟨n, hn⟩ | ⟨n, b, z, hb, hbne, heq⟩
    · have hn4 : n = 4 := by
        rw [hn] at hlen
        simpa using hlen
      subst hn4
      rw [hn]
      exact exists_le_of_mem_range_map (by decide)
    · have hblen : n + (z + 1) = 4 := by
        rw [heq] at hlen
        simp at hlen
        omega
      have hb' : b = 0 ∨ b = 128 ∨ b = 192 ∨ b = 224 ∨ b = 240 ∨ b = 248 ∨
          b = 252 ∨ b = 254 ∨ b = 255 := by
        simpa [possibleBlocks4] using hb
      rw [heq]
      obtain rfl : z = 3 - n := by omega
      have hn3 : n ≤ 3 := by omega
      interval_cases n <;>
        rcases hb' with rfl | rfl | rfl | rfl | rfl | rfl | rfl | rfl | rfl <;>
          first
            | exact absurd rfl hbne
            | exact exists_le_of_mem_range_map (by decide)
  · rintro ⟨c, hc, rfl⟩
    interval_cases c <;> decide

/-- `isCorrectSubmask(6, ·)` accepts exactly the 129 canonical prefix-mask
arrays `CIDR_TO_MASK[6]`. -/
theorem isCorrectSubmask6_valid_iff (items : List Int) :
    isCorrectSubmask6 items = .valid ↔
      ∃ c, c ≤ 128 ∧ items = (createSubmaskArray6 c).map (fun n : Nat => (n : Int)) := by
  constructor
  · intro h
    have hlen : items.length = 8 := by
      by_contra hne
      rw [isCorrectSubmask6, if_pos hne] at h
      simp at h
    rw [isCorrectSubmask6, if_neg (by simp [hlen])] at h
    rcases icsGo_false_valid _ _ items h with ⟨n, hn⟩ | ⟨n, b, z, hb, hbne, heq⟩
    · have hn8 : n = 8 := by
        rw [hn] at hlen
        simpa using hlen
      subst hn8
      rw [hn]
      exact exists_le_of_mem_range_map (by decide)
    · have hblen : n + (z + 1) = 8 := by
        rw [heq] at hlen
        simp at hlen
        omega
      have hb' : b = 0 ∨ b = 0x8000 ∨ b = 0xC000 ∨ b = 0xE000 ∨ b = 0xF000 ∨
          b = 0xF800 ∨ b = 0xFC00 ∨ b = 0xFE00 ∨ b = 0xFF00 ∨ b = 0xFF80 ∨
          b = 0xFFC0 ∨ b = 0xFFE0 ∨ b = 0xFFF0 ∨ b = 0xFFF8 ∨ b = 0xFFFC ∨
          b = 0xFFFE ∨ b = 0xFFFF := by
        simpa [possibleBlocks6] using hb
      rw [heq]
      obtain rfl : z = 7 - n := by omega
      have hn7 : n ≤ 7 := by omega
      interval_cases n <;>
        rcases hb' with rfl | rfl | rfl | rfl | rfl | rfl | rfl | rfl | rfl |
          rfl | rfl | rfl | rfl | rfl | rfl | rfl | rfl <;>
          first
            | exact absurd rfl hbne
            | exact exists_le_of_mem_range_map (by decide)
  · rintro ⟨c, hc, rfl⟩
    interval_cases c <;> decide

/-- Casting a word list to integers is injective. -/
theorem map_intCast_inj {xs ys : List Nat}
    (h : xs.map (fun n : Nat => (n : Int)) = ys.map (fun n : Nat => (n : Int))) : xs = ys := by
  induction xs generalizing ys with
  | nil =>
    cases ys with
    | nil => rfl
    | cons y ys => exact absurd (congrArg List.length h) (by simp)
  | cons x xs ih =>
    cases ys with
    | nil => exact absurd (congrArg List.length h) (by simp)
    | cons y ys =>
      simp only [List.map_cons, List.cons.injEq] at h
      obtain ⟨h1, h2⟩ := h
      have hx : x = y := by exact_mod_cast h1
      rw [hx, ih h2]

/-! ## Host-count scan: helper lemmas -/

/-- The scan returns immediately when the current CIDR has enough hosts. -/
theorem genLoop_hit (sizeF : Nat → Int) (diff : Int)
    (maskF : Nat → Except SmErr (List Nat)) (hosts : Int) (c : Nat)
    (msk : List Nat) (hm : maskF c = .ok msk) (h : sizeF c - diff ≥ hosts) :
    genLoop sizeF diff maskF hosts c = .ok ⟨msk, sizeF c - diff, sizeF c, c⟩ := by
  cases c with
  | zero =>
    rw [genLoop, if_pos h, hm]
    rfl
  | succ c =>
    rw [genLoop, if_pos h, hm]
    rfl

/-- The scan steps down when the current CIDR has too few hosts. -/
theorem genLoop_miss (sizeF : Nat → Int) (diff : Int)
    (maskF : Nat → Except SmErr (List Nat)) (hosts : Int) (c : Nat)
    (h : ¬sizeF (c + 1) - diff ≥ hosts) :
    genLoop sizeF diff maskF hosts (c + 1) = genLoop sizeF diff maskF hosts c := by
  rw [genLoop, if_neg h]

/-- If no scanned CIDR has enough hosts, the loop falls through to the bare
`throw new Error()`. -/
theorem genLoop_fail (sizeF : Nat → Int) (diff : Int)
    (maskF : Nat → Except SmErr (List Nat)) (hosts : Int) :
    ∀ c, (∀ c₀, c₀ ≤ c → sizeF c₀ - diff < hosts) →
      genLoop sizeF diff maskF hosts c = .error .genericError := by
  intro c
  induction c with
  | zero =>
    intro hall
    rw [genLoop, if_neg (by have := hall 0 le_rfl; omega)]
  | succ c ih =>
    intro hall
    rw [genLoop, if_neg (by have := hall (c + 1) le_rfl; omega)]
    exact ih (fun c₀ hc₀ => hall c₀ (by omega))

/-- The scan can only error with the generic fallthrough while the mask
table covers the scanned range. -/
theorem genLoop_error (sizeF : Nat → Int) (diff : Int)
    (maskF : Nat → Except SmErr (List Nat)) (mask : Nat → List Nat) (B : Nat)
    (hmask : ∀ c, c ≤ B → maskF c = .ok (mask c)) (hosts : Int) :
    ∀ c, c ≤ B → ∀ e, genLoop sizeF diff maskF hosts c = .error e →
      e = .genericError := by
  intro c
  induction c with
  | zero =>
    intro hcB e he
    rw [genLoop] at he
    by_cases hhit : sizeF 0 - diff ≥ hosts
    · rw [if_pos hhit, hmask 0 hcB] at he
      simp [Except.map] at he
    · rw [if_neg hhit] at he
      exact (Except.error.inj he).symm
  | succ c ih =>
    intro hcB e he
    rw [genLoop] at he
    by_cases hhit : sizeF (c + 1) - diff ≥ hosts
    · rw [if_pos hhit, hmask (c + 1) hcB] at he
      simp [Except.map] at he
    · rw [if_neg hhit] at he
      exact ih (by omega) e he

/-- Full characterisation of a successful scan: it returns the first CIDR,
counting down, whose available host count reaches the target. -/
theorem genLoop_spec (sizeF : Nat → Int) (diff : Int)
    (maskF : Nat → Except SmErr (List Nat)) (mask : Nat → List Nat) (B : Nat)
    (hmask : ∀ c, c ≤ B → maskF c = .ok (mask c)) (hosts : Int) :
    ∀ c, c ≤ B → (∃ c₀, c₀ ≤ c ∧ sizeF c₀ - diff ≥ hosts) →
      ∃ r : GenRes, genLoop sizeF diff maskF hosts c = .ok r ∧ r.cidr ≤ c ∧
        r.hosts = sizeF r.cidr - diff ∧ r.size = sizeF r.cidr ∧
        r.submask = mask r.cidr ∧ r.hosts ≥ hosts ∧
        ∀ c', r.cidr < c' → c' ≤ c → sizeF c' - diff < hosts := by
  intro c
  induction c with
  | zero =>
    intro hcB hex
    obtain ⟨c₀, hc₀, hhit⟩ := hex
    have hc00 : c₀ = 0 := by omega
    subst hc00
    refine ⟨⟨mask 0, sizeF 0 - diff, sizeF 0, 0⟩,
      genLoop_hit _ _ _ _ 0 _ (hmask 0 hcB) hhit, le_rfl, rfl, rfl, rfl, hhit, ?_⟩
    intro c' h1 h2
    have h1' : 0 < c' := h1
    omega
  | succ c ih =>
    intro hcB hex
    by_cases hhit : sizeF (c + 1) - diff ≥ hosts
    · refine ⟨⟨mask (c + 1), sizeF (c + 1) - diff, sizeF (c + 1), c + 1⟩,
        genLoop_hit _ _ _ _ (c + 1) _ (hmask (c + 1) hcB) hhit,
        le_rfl, rfl, rfl, rfl, hhit, ?_⟩
      intro c' h1 h2
      have h1' : c + 1 < c' := h1
      omega
    · obtain ⟨c₀, hc₀, hhit₀⟩ := hex
      have hc₀' : c₀ ≤ c := by
        rcases Nat.lt_or_ge c₀ (c + 1) with h | h
        · omega
        · exfalso
          have hc1 : c₀ = c + 1 := by omega
          subst hc1
          exact hhit hhit₀
      rw [genLoop_miss _ _ _ _ c hhit]
      obtain ⟨r, hr, hrc, h1, h2, h3, h4, hmin⟩ := ih (by omega) ⟨c₀, hc₀', hhit₀⟩
      refine ⟨r, hr, by omega, h1, h2, h3, h4, ?_⟩
      intro c' hlt hle
      rcases Nat.lt_or_ge c' (c + 1) with h | h
      · exact hmin c' hlt (by omega)
      · have hc1 : c' = c + 1 := by omega
        subst hc1
        omega

/-- The mask table covers `[0, 32]` for V4. -/
theorem generateSubmaskFromCidr4_ok (c : Nat) (hc : c ≤ 32) :
    generateSubmaskFromCidr4 c = .ok (createSubmaskArray4 c) := by
  rw [generateSubmaskFromCidr4, if_pos hc]

/-- The mask table covers `[0, 128]` for V6. -/
theorem generateSubmaskFromCidr6_ok (c : Nat) (hc : c ≤ 128) :
    generateSubmaskFromCidr6 c = .ok (createSubmaskArray6 c) := by
  rw [generateSubmaskFromCidr6, if_pos hc]

/-- For CIDRs from 2 to 32 the JavaScript shift computes the exact network
size; below 2 it wraps (`1 << 31` is negative, `1 << 32` is `1 << 0`). -/
theorem getSizeFromCidr4_eq (c : Nat) (h2 : 2 ≤ c) (h32 : c ≤ 32) :
    getSizeFromCidr4 c = (2 : Int) ^ (32 - c) := by
  interval_cases c <;> decide

/-- The wrapped size at CIDR 0: `1 << (32 % 32)` is 1. -/
theorem getSizeFromCidr4_zero : getSizeFromCidr4 0 = 1 := by decide

/-- The wrapped size at CIDR 1: `1 << 31` is the most negative 32-bit value. -/
theorem getSizeFromCidr4_one : getSizeFromCidr4 1 = -(2 ^ 31) := by decide

/-- All V4 sizes are at most `2^30`. -/
theorem getSizeFromCidr4_le (c : Nat) (h32 : c ≤ 32) :
    getSizeFromCidr4 c ≤ 2 ^ 30 := by
  by_cases h2 : 2 ≤ c
  · rw [getSizeFromCidr4_eq c h2 h32]
    exact pow_le_pow_right₀ (by norm_num) (by omega)
  · interval_cases c <;> decide

/-- V6 sizes are bounded by the total address count. -/
theorem getSizeFromCidr6_le (c : Nat) : getSizeFromCidr6 c ≤ 2 ^ 128 := by
  rw [getSizeFromCidr6]
  exact pow_le_pow_right₀ (by norm_num) (by omega)

/-! ## Claim C1 -/

/-- C1: for every valid word array of a version (4 words below 256 for V4,
8 words below 65536 for V6), parsing the formatted string returns the array:
`parseIPv4Address (stringifyIPv4Address W) = W` and
`parseIPv6Address (stringifyIPv6Address W) = W`.  The V6 statement covers
every word array, hence in particular leading, trailing, length-one,
whole-address and tied zero runs. -/
theorem C1_parse_format_round_trip (w4 w6 : List Nat)
    (h4len : w4.length = 4) (h4b : ∀ w ∈ w4, w ≤ 255)
    (h6len : w6.length = 8) (h6b : ∀ w ∈ w6, w ≤ 65535) :
    parseIPv4Address (stringifyIPv4Address w4) = .ok w4 ∧
    parseIPv6Address (stringifyIPv6Address w6) = .ok w6 :=
  ⟨parseIPv4_stringifyIPv4 w4 h4len h4b, parseIPv6_stringifyIPv6 w6 h6len h6b⟩

/-- Witness for C1 at a concrete V4 address and a V6 address whose zero runs
are tied (runs at words 1-2 and 4-5, plus a trailing single zero). -/
theorem C1_parse_format_round_trip_witness :
    parseIPv4Address (stringifyIPv4Address [192, 168, 1, 0]) = .ok [192, 168, 1, 0] ∧
    parseIPv6Address (stringifyIPv6Address [1, 0, 0, 2, 0, 0, 3, 0]) =
      .ok [1, 0, 0, 2, 0, 0, 3, 0] :=
  C1_parse_format_round_trip [192, 168, 1, 0] [1, 0, 0, 2, 0, 0, 3, 0]
    (by decide) (by decide) (by decide) (by decide)

/-! ## Claim C9 -/

/-- C9: a colon-hex string with more than 8 groups, each group a nonempty
hex token whose value is at most `0xFFFF`, and hence without `::`, is parsed
without an error: `parseIPv6Address` returns the first 8 groups (writes past
the fixed `Uint16Array` are discarded) and `IPv6Address.fromString` accepts
the over-long string. -/
theorem C9_overlong_hex_groups (ts : List (List Char)) (hcount : 8 < ts.length)
    (htok : ∀ t ∈ ts, t ≠ [] ∧ (∀ c ∈ t, (hexDigitVal? c).isSome) ∧ hexTokVal t ≤ 65535) :
    parseIPv6Address (joinSep ':' ts) = .ok ((ts.take 8).map hexTokVal) ∧
    IPv6Address_fromString (joinSep ':' ts) = .ok ((ts.take 8).map hexTokVal, none) := by
  have htf : ∀ t ∈ ts, t ≠ [] ∧ ':' ∉ t := by
    intro t ht
    obtain ⟨hne, hhex, _⟩ := htok t ht
    exact ⟨hne, fun hcol => hexDigit_ne_colon ':' (hhex ':' hcol) rfl⟩
  have htsne : ts ≠ [] := by
    intro h
    rw [h] at hcount
    simp at hcount
  have hCP : hasColonPair (joinSep ':' ts) = false := hasColonPair_joinSep ts htf
  have hforb : (joinSep ':' ts).any isForbidden6 = false :=
    any_forbidden6_joinSep ts
      (fun t ht c hc => hexDigit_not_forbidden6 c ((htok t ht).2.1 c hc))
  have hcz : countZeroToAdd (joinSep ':' ts) = .ok 0 := by
    rw [countZeroToAdd]
    rw [if_neg (by
      intro h
      rw [h] at hCP
      exact absurd hCP (by decide))]
    rw [(idxOfSub_colons_eq_none_iff _).mpr hCP]
  have hsplit : splitOnChar ':' (joinSep ':' ts) = ts :=
    splitOnChar_joinSep ':' ts htsne (fun t ht => (htf t ht).2)
  have hhead : ts.head? ≠ some ([] : List Char) := by
    rcases ts with _ | ⟨t, rest⟩
    · exact absurd rfl htsne
    · intro hcontra
      simp only [List.head?_cons, Option.some_inj] at hcontra
      exact (htf t (List.mem_cons_self t rest)).1 hcontra
  have hres : setSeq (List.replicate 8 0) 0 (ts.map hexTokVal) =
      (ts.take 8).map hexTokVal := by
    apply eq_of_getD
    · rw [setSeq_length]
      simp
      omega
    · intro j
      by_cases hj : j < 8
      · rw [setSeq_getD_in _ _ _ _ (by omega) (by simp; omega) (by simp; omega)]
        rw [Nat.sub_zero, List.map_take, getD_take _ 8 j hj]
      · have hl : (setSeq (List.replicate 8 0) 0 (ts.map hexTokVal)).length = 8 := by
          rw [setSeq_length]
          simp
        rw [List.getD_eq_default _ _ (by rw [hl]; omega)]
        rw [List.getD_eq_default _ _ (by simp; omega)]
  have hparse : parseIPv6Address (joinSep ':' ts) = .ok ((ts.take 8).map hexTokVal) := by
    rw [parseIPv6Address, if_neg (by rw [hforb]; simp), hcz, except_bind_ok, hsplit]
    rw [if_neg hhead]
    have h := fillParts_hex_toks ts [] (0 : Int).toNat (List.replicate 8 0) 0 htok
    rw [List.append_nil] at h
    rw [h]
    show Except.ok (setSeq (List.replicate 8 0) 0 (ts.map hexTokVal)) = _
    rw [hres]
  refine ⟨hparse, ?_⟩
  have hp : idxOfSub ['%'] (joinSep ':' ts) = none := by
    apply idxOfSub_percent_none
    intro hmem
    rcases mem_joinSep ':' ts '%' hmem with h | ⟨t, ht, hct⟩
    · exact absurd h (by decide)
    · exact hexDigit_ne_percent '%' ((htok t ht).2.1 '%' hct) rfl
  rw [IPv6Address_fromString.eq_def, hp]
  rw [hparse, except_bind_ok]
  rw [if_pos]
  constructor
  · simp
    omega
  · rw [List.all_eq_true]
    intro x hx
    rcases List.mem_map.mp hx with ⟨t, ht, rfl⟩
    have := (htok t (List.take_subset 8 ts ht)).2.2
    simpa using this

/-- Witness for C9 at a nine-group string `"1:2:3:4:5:6:7:8:9"`. -/
theorem C9_overlong_hex_groups_witness :
    parseIPv6Address
        (joinSep ':' [['1'], ['2'], ['3'], ['4'], ['5'], ['6'], ['7'], ['8'], ['9']]) =
      .ok (([['1'], ['2'], ['3'], ['4'], ['5'], ['6'], ['7'], ['8'], ['9']].take 8).map
        hexTokVal) ∧
    IPv6Address_fromString
        (joinSep ':' [['1'], ['2'], ['3'], ['4'], ['5'], ['6'], ['7'], ['8'], ['9']]) =
      .ok ((([['1'], ['2'], ['3'], ['4'], ['5'], ['6'], ['7'], ['8'], ['9']].take 8).map
        hexTokVal), none) :=
  C9_overlong_hex_groups [['1'], ['2'], ['3'], ['4'], ['5'], ['6'], ['7'], ['8'], ['9']]
    (by decide) (by decide)

/-! ## Claim C8 -/

/-- C8 (amended): `parseIPv4Address` throws on any dot-split token count other
than 4, and accepts four all-decimal-digit tokens with values in `[0, 255]`
decimally; but tokens go through the JavaScript `Number` coercion, so the
empty token of `"192.168.1."` coerces to `0` and the string parses as
`192.168.1.0`, and a hexadecimal token as in `"0x10.0.0.1"` is accepted with
its hex value — the claim's "any non-integer token is an error" and
"decimal only" do not hold.  Out-of-range values are still errors. -/
theorem C8_amended_number_coercion :
    (∀ cs : List Char, (splitOnChar '.' cs).length ≠ 4 →
      ∃ er, parseIPv4Address cs = .error er) ∧
    (∀ cs : List Char,
      (∀ c ∈ cs, (digitValB? 10 c).isSome ∨ c = '.') →
      (splitOnChar '.' cs).length = 4 →
      (∀ t ∈ splitOnChar '.' cs, t ≠ []) →
      (∀ t ∈ splitOnChar '.' cs, decTokVal t ≤ 255) →
      parseIPv4Address cs = .ok ((splitOnChar '.' cs).map decTokVal)) ∧
    parseIPv4Address ['1', '9', '2', '.', '1', '6', '8', '.', '1', '.'] =
      .ok [192, 168, 1, 0] ∧
    parseIPv4Address ['0', 'x', '1', '0', '.', '0', '.', '0', '.', '1'] =
      .ok [16, 0, 0, 1] ∧
    parseIPv4Address ['1', '9', '2', '.', '1', '6', '8', '.', '1', '.', '2', '5', '6'] =
      .error .incorrectItem := by
  refine ⟨?_, ?_, rfl, rfl, rfl⟩
  · intro cs hcnt
    rw [parseIPv4Address]
    by_cases hforb : cs.any isForbidden4 = true
    · rw [if_pos hforb]
      exact ⟨_, rfl⟩
    · rw [if_neg hforb, if_pos hcnt]
      exact ⟨_, rfl⟩
  · intro cs hchar hcnt hne hval
    have hdigit : ∀ t ∈ splitOnChar '.' cs, ∀ c ∈ t, (digitValB? 10 c).isSome := by
      intro t ht c hc
      have hmem := mem_of_mem_splitOnChar '.' cs t ht c hc
      rcases hchar c hmem.1 with h | h
      · exact h
      · exact absurd h hmem.2
    rw [parseIPv4Address]
    rw [if_neg (by
      simp only [List.any_eq_true, not_exists, not_and]
      intro c hc
      rcases hchar c hc with h | h
      · simp [decDigit_not_forbidden4 c h]
      · subst h
        decide)]
    rw [if_neg (by simp [hcnt])]
    exact parseIPv4Tokens_digit_toks _ (fun t ht => ⟨hne t ht, hdigit t ht, hval t ht⟩)

/-- Witness for the amended C8: a three-token string errors, and a canonical
four-token decimal string parses to its token values. -/
theorem C8_amended_number_coercion_witness :
    (∃ er, parseIPv4Address ['1', '.', '2'] = .error er) ∧
    parseIPv4Address ['1', '.', '2', '.', '3', '.', '4'] =
      .ok ((splitOnChar '.' ['1', '.', '2', '.', '3', '.', '4']).map decTokVal) :=
  ⟨C8_amended_number_coercion.1 ['1', '.', '2'] (by decide),
    C8_amended_number_coercion.2.1 ['1', '.', '2', '.', '3', '.', '4']
      (by decide) (by decide) (by decide) (by decide)⟩

/-- C8 counterexample: `"192.168.1."` has an empty dot-token, yet
`parseIPv4Address` does not throw — JavaScript's `Number("")` is `0`, so the
string parses as `192.168.1.0`, contradicting the claim that a non-integer
token such as an empty token is an error. -/
theorem C8_counterexample :
    (([] : List Char) ∈ splitOnChar '.' ['1', '9', '2', '.', '1', '6', '8', '.', '1', '.']) ∧
    parseIPv4Address ['1', '9', '2', '.', '1', '6', '8', '.', '1', '.'] =
      .ok [192, 168, 1, 0] := by
  constructor
  · decide
  · rfl

/-! ## Claim C3 -/

/-- C3: `isCorrectSubmask(version, items)` reports valid exactly when the
items form one of the canonical prefix-mask arrays (right word count, every
word in range, ones followed by zeros); any other word count is an
incorrect-format error; V4 `[255,240,0,0]` is accepted and `[255,0,255,0]`
is rejected with the has-one-after-zero error. -/
theorem C3_submask_validation :
    (∀ items : List Int, isCorrectSubmask4 items = .valid ↔
      ∃ c, c ≤ 32 ∧ items = (createSubmaskArray4 c).map (fun n : Nat => (n : Int))) ∧
    (∀ items : List Int, isCorrectSubmask6 items = .valid ↔
      ∃ c, c ≤ 128 ∧ items = (createSubmaskArray6 c).map (fun n : Nat => (n : Int))) ∧
    (∀ items : List Int, items.length ≠ 4 →
      isCorrectSubmask4 items = .incorrectFormat) ∧
    (∀ items : List Int, items.length ≠ 8 →
      isCorrectSubmask6 items = .incorrectFormat) ∧
    isCorrectSubmask4 [255, 240, 0, 0] = .valid ∧
    isCorrectSubmask4 [255, 0, 255, 0] = .hasOneAfterZero := by
  refine ⟨isCorrectSubmask4_valid_iff, isCorrectSubmask6_valid_iff, ?_, ?_,
    by decide, by decide⟩
  · intro items hne
    rw [isCorrectSubmask4, if_pos hne]
  · intro items hne
    rw [isCorrectSubmask6, if_pos hne]

/-- Witness for C3 at the canonical `/24` mask and a wrong-length list. -/
theorem C3_submask_validation_witness :
    (isCorrectSubmask4 [255, 255, 255, 0] = .valid ↔
      ∃ c, c ≤ 32 ∧ ([255, 255, 255, 0] : List Int) =
        (createSubmaskArray4 c).map (fun n : Nat => (n : Int))) ∧
    isCorrectSubmask4 [255, 255] = .incorrectFormat :=
  ⟨C3_submask_validation.1 [255, 255, 255, 0],
    C3_submask_validation.2.2.1 [255, 255] (by decide)⟩

/-! ## Claim C10 -/

/-- Unfolding of `IPv6Submask.fromUint` through its `check: true`
constructor. -/
theorem IPv6Submask_fromUint_eq (u : Int) :
    IPv6Submask_fromUint u =
      (match isCorrectSubmask6 ((uintToArray6 u).map (fun n : Nat => (n : Int))) with
        | .valid => .ok (uintToArray6 u)
        | e => .error e) := rfl

/-- `IPv6Submask.fromUint` succeeds exactly when the word array passes
`isCorrectSubmask`. -/
theorem IPv6Submask_fromUint_ok_iff (u : Int) :
    IPv6Submask_fromUint u = .ok (uintToArray6 u) ↔
      isCorrectSubmask6 ((uintToArray6 u).map (fun n : Nat => (n : Int))) = .valid := by
  rw [IPv6Submask_fromUint_eq]
  rcases hres : isCorrectSubmask6 ((uintToArray6 u).map (fun n : Nat => (n : Int))) with
    _ | _ | _ | _ <;> simp

/-- A successful `IPv6Submask.fromUint` returns the word array and implies
it passed `isCorrectSubmask`. -/
theorem IPv6Submask_fromUint_ok_elim (u : Int) (xs : List Nat)
    (h : IPv6Submask_fromUint u = .ok xs) :
    xs = uintToArray6 u ∧
      isCorrectSubmask6 ((uintToArray6 u).map (fun n : Nat => (n : Int))) = .valid := by
  rw [IPv6Submask_fromUint_eq] at h
  rcases hres : isCorrectSubmask6 ((uintToArray6 u).map (fun n : Nat => (n : Int))) with
    _ | _ | _ | _
  · rw [hres] at h
    simp only [Except.ok.injEq] at h
    exact ⟨h.symm, rfl⟩
  · rw [hres] at h
    simp at h
  · rw [hres] at h
    simp at h
  · rw [hres] at h
    simp at h

/-- C10: `IPv4Submask.fromUint` constructs with `check: false`, so every
integer input — including `0x00FF00FF`, whose word array `[0,255,0,255]`
violates the prefix-mask invariant — yields a submask object without a
throw; `IPv6Submask.fromUint` constructs with `check: true`, so it succeeds
exactly when the bigint's word array passes `isCorrectSubmask` (equivalently,
is a canonical prefix mask) and throws otherwise, for example for `255n`. -/
theorem C10_fromUint_checking :
    (∀ u : Int, IPv4Submask_fromUint u = .ok (uintToArray4 u)) ∧
    IPv4Submask_fromUint 0x00FF00FF = .ok [0, 255, 0, 255] ∧
    isCorrectSubmask4 [0, 255, 0, 255] = .hasOneAfterZero ∧
    (∀ u : Int, IPv6Submask_fromUint u = .ok (uintToArray6 u) ↔
      isCorrectSubmask6 ((uintToArray6 u).map (fun n : Nat => (n : Int))) = .valid) ∧
    (∀ u : Int, ∀ xs, IPv6Submask_fromUint u = .ok xs →
      ∃ c, c ≤ 128 ∧ xs = createSubmaskArray6 c) ∧
    IPv6Submask_fromUint 255 = .error .hasOneAfterZero := by
  refine ⟨fun u => rfl, by decide, by decide, IPv6Submask_fromUint_ok_iff, ?_, by decide⟩
  intro u xs h
  obtain ⟨hxs, hvalid⟩ := IPv6Submask_fromUint_ok_elim u xs h
  obtain ⟨c, hc, heq⟩ := (isCorrectSubmask6_valid_iff _).mp hvalid
  exact ⟨c, hc, by rw [hxs]; exact map_intCast_inj heq⟩

set_option maxRecDepth 8000 in
/-- Witness for C10 at `u = -1` (V4, no validation) and at the canonical
`/64` and invalid `255n` bigints (V6). -/
theorem C10_fromUint_checking_witness :
    IPv4Submask_fromUint (-1) = .ok (uintToArray4 (-1)) ∧
    (IPv6Submask_fromUint (2 ^ 128 - 2 ^ 64) = .ok (uintToArray6 (2 ^ 128 - 2 ^ 64)) ↔
      isCorrectSubmask6 ((uintToArray6 (2 ^ 128 - 2 ^ 64)).map
        (fun n : Nat => (n : Int))) = .valid) ∧
    ∃ c, c ≤ 128 ∧ uintToArray6 (2 ^ 128 - 2 ^ 64) = createSubmaskArray6 c :=
  ⟨C10_fromUint_checking.1 (-1),
    C10_fromUint_checking.2.2.2.1 (2 ^ 128 - 2 ^ 64),
    C10_fromUint_checking.2.2.2.2.1 (2 ^ 128 - 2 ^ 64) _ (by decide)⟩

/-! ## Claim C2 -/

/-- C2 (amended): `generateSubmaskFromHosts(version, H)` throws the
`ContextError` exactly when `H < 0` or `H > 2^W`; for accepted `H` the scan
returns the first CIDR, counting down from `W`, whose
`availableHosts = getSizeFromCidr(version, cidr) − diff` reaches `H` — but
the V4 size is a wrapped 32-bit shift (`1 << 31 < 0`, `1 << 32 = 1`), so the
scan only succeeds for `H ≤ 2^30 − 2`; for larger accepted `H` (and for the
accepted V6 value `H = 2^128`) the loop falls through to a bare
`throw new Error()` instead of returning a mask. -/
theorem C2_fromHosts_scan :
    (∀ H : Int, generateSubmaskFromHosts4 H = .error .invalidHostsNumber ↔
      (H < 0 ∨ H > 2 ^ 32)) ∧
    (∀ H : Int, 0 ≤ H → H ≤ 2 ^ 30 - 2 →
      ∃ r : GenRes, generateSubmaskFromHosts4 H = .ok r ∧ r.cidr ≤ 32 ∧
        r.hosts = getSizeFromCidr4 r.cidr - 2 ∧ r.size = getSizeFromCidr4 r.cidr ∧
        r.submask = createSubmaskArray4 r.cidr ∧ r.hosts ≥ H ∧
        ∀ c', r.cidr < c' → c' ≤ 32 → getSizeFromCidr4 c' - 2 < H) ∧
    (∀ H : Int, 2 ^ 30 - 2 < H → H ≤ 2 ^ 32 →
      generateSubmaskFromHosts4 H = .error .genericError) ∧
    (∀ H : Int, generateSubmaskFromHosts6 H = .error .invalidHostsNumber ↔
      (H < 0 ∨ H > 2 ^ 128)) ∧
    (∀ H : Int, 0 ≤ H → H ≤ 2 ^ 128 - 1 →
      ∃ r : GenRes, generateSubmaskFromHosts6 H = .ok r ∧ r.cidr ≤ 128 ∧
        r.hosts = getSizeFromCidr6 r.cidr - 1 ∧ r.size = getSizeFromCidr6 r.cidr ∧
        r.submask = createSubmaskArray6 r.cidr ∧ r.hosts ≥ H ∧
        ∀ c', r.cidr < c' → c' ≤ 128 → getSizeFromCidr6 c' - 1 < H) ∧
    generateSubmaskFromHosts6 (2 ^ 128) = .error .genericError := by
  have hp30 : (2 : Int) ^ 30 = 1073741824 := by norm_num
  have hp32 : (2 : Int) ^ 32 = 4294967296 := by norm_num
  refine ⟨?_, ?_, ?_, ?_, ?_, ?_⟩
  · intro H
    constructor
    · intro h
      by_contra hnr
      rw [generateSubmaskFromHosts4, if_neg hnr] at h
      have := genLoop_error getSizeFromCidr4 2 generateSubmaskFromCidr4
        createSubmaskArray4 32 generateSubmaskFromCidr4_ok H 32 le_rfl _ h
      simp at this
    · intro h
      rw [generateSubmaskFromHosts4, if_pos h]
  · intro H h0 hle
    rw [generateSubmaskFromHosts4, if_neg (by omega)]
    have hex : ∃ c₀, c₀ ≤ 32 ∧ getSizeFromCidr4 c₀ - 2 ≥ H := by
      refine ⟨2, by omega, ?_⟩
      rw [getSizeFromCidr4_eq 2 (by omega) (by omega)]
      have h302 : (2 : Int) ^ (32 - 2) = 2 ^ 30 := by norm_num
      omega
    obtain ⟨r, hr, hrc, hh, hs, hsm, hge, hmin⟩ :=
      genLoop_spec getSizeFromCidr4 2 generateSubmaskFromCidr4 createSubmaskArray4
        32 generateSubmaskFromCidr4_ok H 32 le_rfl hex
    exact ⟨r, hr, hrc, hh, hs, hsm, hge, hmin⟩
  · intro H hgt hle
    rw [generateSubmaskFromHosts4, if_neg (by omega)]
    apply genLoop_fail
    intro c₀ hc₀
    have hle30 := getSizeFromCidr4_le c₀ hc₀
    omega
  · intro H
    constructor
    · intro h
      by_contra hnr
      rw [generateSubmaskFromHosts6, if_neg hnr] at h
      have := genLoop_error getSizeFromCidr6 1 generateSubmaskFromCidr6
        createSubmaskArray6 128 generateSubmaskFromCidr6_ok H 128 le_rfl _ h
      simp at this
    · intro h
      rw [generateSubmaskFromHosts6, if_pos h]
  · intro H h0 hle
    rw [generateSubmaskFromHosts6, if_neg (by omega)]
    have hex : ∃ c₀, c₀ ≤ 128 ∧ getSizeFromCidr6 c₀ - 1 ≥ H := by
      refine ⟨0, by omega, ?_⟩
      have hs0 : getSizeFromCidr6 0 = 2 ^ 128 := rfl
      omega
    obtain ⟨r, hr, hrc, hh, hs, hsm, hge, hmin⟩ :=
      genLoop_spec getSizeFromCidr6 1 generateSubmaskFromCidr6 createSubmaskArray6
        128 generateSubmaskFromCidr6_ok H 128 le_rfl hex
    exact ⟨r, hr, hrc, hh, hs, hsm, hge, hmin⟩
  · rw [generateSubmaskFromHosts6, if_neg (by omega)]
    apply genLoop_fail
    intro c₀ hc₀
    have := getSizeFromCidr6_le c₀
    omega

/-- Witness for C2 at `H = -1` (rejected), `H = 100` (served at `/25`) and
`H = 2^31` (accepted yet failing). -/
theorem C2_fromHosts_scan_witness :
    (generateSubmaskFromHosts4 (-1) = .error .invalidHostsNumber ↔
      ((-1 : Int) < 0 ∨ (-1 : Int) > 2 ^ 32)) ∧
    (∃ r : GenRes, generateSubmaskFromHosts4 100 = .ok r ∧ r.cidr ≤ 32 ∧
      r.hosts = getSizeFromCidr4 r.cidr - 2 ∧ r.size = getSizeFromCidr4 r.cidr ∧
      r.submask = createSubmaskArray4 r.cidr ∧ r.hosts ≥ 100 ∧
      ∀ c', r.cidr < c' → c' ≤ 32 → getSizeFromCidr4 c' - 2 < 100) ∧
    generateSubmaskFromHosts4 (2 ^ 31) = .error .genericError :=
  ⟨C2_fromHosts_scan.1 (-1),
    C2_fromHosts_scan.2.1 100 (by norm_num) (by norm_num),
    C2_fromHosts_scan.2.2.1 (2 ^ 31) (by norm_num) (by norm_num)⟩

/-- C2 counterexample: `H = 2^30 − 1` is accepted by the range check
(`0 ≤ H ≤ 2^32`), yet the scan returns no CIDR at all — the claim promises
a first fitting CIDR with `hosts ≥ H` for every accepted `H`, but because
the 32-bit sizes at CIDR 1 and 0 wrap to `−2^31` and `1`, the loop falls
through to a bare `throw new Error()`. -/
theorem C2_counterexample :
    ¬((2 ^ 30 - 1 : Int) < 0 ∨ (2 ^ 30 - 1 : Int) > 2 ^ 32) ∧
    generateSubmaskFromHosts4 (2 ^ 30 - 1) = .error .genericError := by
  constructor
  · decide
  · decide

/-! ## Claim C7 -/

set_option maxRecDepth 8000 in
/-- C7 (amended): the `hosts` getter computed from `cidr` follows the
claimed formula only on `/2 .. /32` for V4 (at `/0` and `/1` the wrapped
32-bit size makes `Math.max(0, size − 2)` collapse to 0) and fully for V6;
moreover `fromHosts` presets `_hosts = size − diff`, which the getter then
returns unchanged, so `fromHosts(0)` (V4) yields a `/31` submask whose
`hosts` is 0 (not 2) and `fromHosts(1n)` (V6) yields a `/127` submask whose
`hosts` is 1 (not 0). -/
theorem C7_hosts_attribute :
    (∀ c : Nat, c ≤ 32 → submaskHostsAttr4 c =
      if c = 32 then 1 else if c = 31 then 2
      else if 2 ≤ c then (2 : Int) ^ (32 - c) - 2 else 0) ∧
    (∀ c : Nat, c ≤ 128 → submaskHostsAttr6 c =
      if c = 128 then 1 else if c = 127 then 0 else (2 : Int) ^ (128 - c) - 1) ∧
    IPv4Submask_fromHosts 0 = .ok ⟨[255, 255, 255, 254], 0, 2, 31⟩ ∧
    IPv6Submask_fromHosts 1 =
      .ok ⟨[65535, 65535, 65535, 65535, 65535, 65535, 65535, 65534], 1, 2, 127⟩ := by
  refine ⟨?_, ?_, by decide, by decide⟩
  · intro c hc
    by_cases h32 : c = 32
    · subst h32
      decide
    · by_cases h31 : c = 31
      · subst h31
        decide
      · rw [if_neg h32, if_neg h31]
        by_cases h2 : 2 ≤ c
        · rw [if_pos h2, submaskHostsAttr4, getHostsFromSizeAndCidr4,
            if_neg h32, if_neg h31, getSizeFromCidr4_eq c h2 (by omega)]
          have hpow : (2 : Int) ^ 2 ≤ 2 ^ (32 - c) :=
            pow_le_pow_right₀ (by norm_num) (by omega)
          have hp2 : (2 : Int) ^ 2 = 4 := by norm_num
          rw [max_eq_right (by omega)]
        · rw [if_neg h2]
          interval_cases c <;> decide
  · intro c hc
    by_cases h128 : c = 128
    · subst h128
      decide
    · by_cases h127 : c = 127
      · subst h127
        decide
      · rw [if_neg h128, if_neg h127, submaskHostsAttr6, getHostsFromSizeAndCidr6,
          if_neg h128, if_neg h127, getSizeFromCidr6]
        rw [if_pos (pow_pos (by norm_num) _)]

/-- Witness for C7 at `/24` (V4) and `/64` (V6). -/
theorem C7_hosts_attribute_witness :
    submaskHostsAttr4 24 =
      (if (24 : Nat) = 32 then 1 else if (24 : Nat) = 31 then 2
        else if 2 ≤ (24 : Nat) then (2 : Int) ^ (32 - 24) - 2 else 0) ∧
    submaskHostsAttr6 64 =
      (if (64 : Nat) = 128 then 1 else if (64 : Nat) = 127 then 0
        else (2 : Int) ^ (128 - 64) - 1) :=
  ⟨C7_hosts_attribute.1 24 (by decide), C7_hosts_attribute.2.1 64 (by decide)⟩

/-- C7 counterexample: `IPv4Submask.fromHosts(0)` builds a `/31` submask and
stores `availableHosts = size − 2 = 0` as its `hosts` attribute, while the
claim requires the `hosts` attribute of every `/31` V4 submask to be 2. -/
theorem C7_counterexample :
    IPv4Submask_fromHosts 0 = .ok ⟨[255, 255, 255, 254], 0, 2, 31⟩ ∧
    ((0 : Int) ≠ 2) := by
  constructor
  · decide
  · decide

/-! ## Claim C6 -/

/-- C6: for the context of `192.168.1.0/24` — address parsed from its dotted
string, submask from CIDR 24 — the network, broadcast, first and last host
arrays are as expected, `includes` accepts `192.168.1.255` and rejects
`192.168.2.1`, and `isHost` rejects the network and broadcast addresses but
accepts `192.168.1.1`. -/
theorem C6_context_concrete :
    parseIPv4Address ['1', '9', '2', '.', '1', '6', '8', '.', '1', '.', '0'] =
      .ok [192, 168, 1, 0] ∧
    generateSubmaskFromCidr4 24 = .ok [255, 255, 255, 0] ∧
    ipv4Network [192, 168, 1, 0] [255, 255, 255, 0] = [192, 168, 1, 0] ∧
    ipv4Broadcast [192, 168, 1, 0] [255, 255, 255, 0] = [192, 168, 1, 255] ∧
    ipv4FirstHost [192, 168, 1, 0] [255, 255, 255, 0] = [192, 168, 1, 1] ∧
    ipv4LastHost [192, 168, 1, 0] [255, 255, 255, 0] = [192, 168, 1, 254] ∧
    (parseIPv4Address ['1', '9', '2', '.', '1', '6', '8', '.', '1', '.', '2', '5', '5']).map
      (ipv4Includes [192, 168, 1, 0] [255, 255, 255, 0]) = .ok true ∧
    (parseIPv4Address ['1', '9', '2', '.', '1', '6', '8', '.', '2', '.', '1']).map
      (ipv4Includes [192, 168, 1, 0] [255, 255, 255, 0]) = .ok false ∧
    (parseIPv4Address ['1', '9', '2', '.', '1', '6', '8', '.', '1', '.', '0']).map
      (ipv4IsHost [192, 168, 1, 0] [255, 255, 255, 0]) = .ok false ∧
    (parseIPv4Address ['1', '9', '2', '.', '1', '6', '8', '.', '1', '.', '2', '5', '5']).map
      (ipv4IsHost [192, 168, 1, 0] [255, 255, 255, 0]) = .ok false ∧
    (parseIPv4Address ['1', '9', '2', '.', '1', '6', '8', '.', '1', '.', '1']).map
      (ipv4IsHost [192, 168, 1, 0] [255, 255, 255, 0]) = .ok true := by
  refine ⟨rfl, by decide, by decide, by decide, by decide, by decide, rfl, rfl, rfl,
    rfl, rfl⟩

/-! ## Tunneling helper lemmas -/

/-- `(a << 8) | b` is exactly `256 * a + b` for byte-sized `b`. -/
theorem copyWordOp_eq (a b : Nat) (hb : b < 256) : copyWordOp a b = 256 * a + b := by
  have h28 : (256 : Nat) = 2 ^ 8 := by norm_num
  rw [copyWordOp, Nat.shiftLeft_eq, h28, Nat.mul_comm a (2 ^ 8)]
  exact (Nat.mul_add_lt_is_or (by omega) a).symm

/-- The packed word fits in 16 bits. -/
theorem copyWordOp_lt (a b : Nat) (ha : a < 256) (hb : b < 256) :
    copyWordOp a b < 65536 := by
  rw [copyWordOp_eq a b hb]
  omega

/-- High byte extraction. -/
theorem copyWordOp_shiftRight (a b : Nat) (hb : b < 256) :
    copyWordOp a b >>> 8 = a := by
  rw [copyWordOp_eq a b hb, Nat.shiftRight_eq_div_pow]
  have h28 : (2 : Nat) ^ 8 = 256 := by norm_num
  rw [h28]
  omega

/-- Low byte extraction. -/
theorem copyWordOp_and255 (a b : Nat) (hb : b < 256) :
    copyWordOp a b &&& 255 = b := by
  rw [copyWordOp_eq a b hb]
  have h255 : (255 : Nat) = 2 ^ 8 - 1 := by norm_num
  rw [h255, Nat.and_pow_two_sub_one_eq_mod]
  have h28 : (2 : Nat) ^ 8 = 256 := by norm_num
  rw [h28]
  omega

/-- XOR with the 16-bit mask stays within 16 bits. -/
theorem xor_ffff_lt (w : Nat) (hw : w < 65536) : w ^^^ 65535 < 65536 := by
  have h := @Nat.xor_lt_two_pow w 65535 16 (by omega) (by omega)
  omega

/-- Elements fetched with `getD` respect a bound on the list. -/
theorem getD_le_of_all {l : List Nat} {M : Nat} (hb : ∀ w ∈ l, w ≤ M) (i : Nat) :
    l.getD i 0 ≤ M := by
  rcases h : l[i]? with _ | w
  · rw [List.getD_eq_getElem?_getD, h]
    exact Nat.zero_le M
  · rw [List.getD_eq_getElem?_getD, h]
    exact hb w (List.getElem?_mem h)

/-- The extraction step never throws on an in-range word array. -/
theorem copyIPv6ToIPv4_ok (v6 : List Nat) (idx : Nat) (op : Nat → Nat)
    (hop : ∀ w, w ≤ 65535 → op w ≤ 65535) (hb : ∀ w ∈ v6, w ≤ 65535) :
    copyIPv6ToIPv4Address v6 idx op =
      .ok [op (v6.getD idx 0) >>> 8, op (v6.getD idx 0) &&& 0xff,
        op (v6.getD (idx + 1) 0) >>> 8, op (v6.getD (idx + 1) 0) &&& 0xff] := by
  have hw1 : op (v6.getD idx 0) ≤ 65535 := hop _ (getD_le_of_all hb idx)
  have hw2 : op (v6.getD (idx + 1) 0) ≤ 65535 := hop _ (getD_le_of_all hb (idx + 1))
  have hdiv : ∀ w : Nat, w ≤ 65535 → w >>> 8 ≤ 255 := by
    intro w hw
    rw [Nat.shiftRight_eq_div_pow]
    have h28 : (2 : Nat) ^ 8 = 256 := by norm_num
    rw [h28]
    omega
  have hand : ∀ w : Nat, w &&& 255 ≤ 255 := fun w => Nat.and_le_right
  rw [copyIPv6ToIPv4Address, mkIPv4, if_neg (by simp)]
  rw [if_neg (by
    simp only [List.any_cons, List.any_nil, Bool.or_false, Bool.or_eq_true,
      decide_eq_true_eq, not_or]
    refine ⟨?_, ?_, ?_, ?_⟩ <;> simp only [Nat.not_lt]
    · exact hdiv _ hw1
    · exact hand _
    · exact hdiv _ hw2
    · exact hand _)]

/-! ## Claim C4 -/

/-- C4: embedding an IPv4 address and extracting with the same tunneling
mode restores it: `Mapped.toIPv4(Mapped.toIPv6(a)) = a`,
`SixToFour.toIPv4(SixToFour.toIPv6(a)) = a`, and for every parameter record
accepted by `Teredo.toIPv6` the extraction returns the original client
address — the `^ 0xFFFF` obfuscation of words 6..7 cancels — with no error
on the embedded result. -/
theorem C4_tunneling_round_trip (x0 x1 x2 x3 : Nat)
    (h0 : x0 ≤ 255) (h1 : x1 ≤ 255) (h2 : x2 ≤ 255) (h3 : x3 ≤ 255) :
    Mapped_toIPv4 (Mapped_toIPv6 [x0, x1, x2, x3]) = .ok [x0, x1, x2, x3] ∧
    SixToFour_toIPv4 (SixToFour_toIPv6 [x0, x1, x2, x3]) = .ok [x0, x1, x2, x3] ∧
    ∀ (p : TeredoDatas) (w6 : List Nat), Teredo_toIPv6 [x0, x1, x2, x3] p = .ok w6 →
      Teredo_toIPv4 w6 = .ok [x0, x1, x2, x3] := by
  have hlt01 : copyWordOp x0 x1 < 65536 := copyWordOp_lt _ _ (by omega) (by omega)
  have hlt23 : copyWordOp x2 x3 < 65536 := copyWordOp_lt _ _ (by omega) (by omega)
  have hm01 : copyWordOp x0 x1 % 65536 = copyWordOp x0 x1 := Nat.mod_eq_of_lt hlt01
  have hm23 : copyWordOp x2 x3 % 65536 = copyWordOp x2 x3 := Nat.mod_eq_of_lt hlt23
  refine ⟨?_, ?_, ?_⟩
  · have h6 : Mapped_toIPv6 [x0, x1, x2, x3] =
        [0, 0, 0, 0, 0, 0xffff, copyWordOp x0 x1, copyWordOp x2 x3] := by
      rw [Mapped_toIPv6, copyIPv4ToIPv6Address]
      simp only [List.getD_cons_zero, List.getD_cons_succ]
      rw [hm01, hm23]
      rfl
    have hvalid : Mapped_isValid
        [0, 0, 0, 0, 0, 0xffff, copyWordOp x0 x1, copyWordOp x2 x3] = true := rfl
    rw [h6, Mapped_toIPv4, if_pos hvalid, copyIPv6ToIPv4Address]
    simp only [List.getD_cons_zero, List.getD_cons_succ]
    rw [copyWordOp_shiftRight _ _ (by omega), copyWordOp_and255 _ _ (by omega),
      copyWordOp_shiftRight _ _ (by omega), copyWordOp_and255 _ _ (by omega)]
    rw [mkIPv4, if_neg (by simp)]
    rw [if_neg (by
      simp only [List.any_cons, List.any_nil, Bool.or_false, Bool.or_eq_true,
        decide_eq_true_eq, not_or]
      omega)]
  · have h6 : SixToFour_toIPv6 [x0, x1, x2, x3] =
        [0x2002, copyWordOp x0 x1, copyWordOp x2 x3, 0, 0, 0, 0, 0] := by
      rw [SixToFour_toIPv6, copyIPv4ToIPv6Address]
      simp only [List.getD_cons_zero, List.getD_cons_succ]
      rw [hm01, hm23]
      rfl
    have hvalid : SixToFour_isValid
        [0x2002, copyWordOp x0 x1, copyWordOp x2 x3, 0, 0, 0, 0, 0] = true := rfl
    rw [h6, SixToFour_toIPv4, if_pos hvalid, copyIPv6ToIPv4Address]
    simp only [List.getD_cons_zero, List.getD_cons_succ]
    rw [copyWordOp_shiftRight _ _ (by omega), copyWordOp_and255 _ _ (by omega),
      copyWordOp_shiftRight _ _ (by omega), copyWordOp_and255 _ _ (by omega)]
    rw [mkIPv4, if_neg (by simp)]
    rw [if_neg (by
      simp only [List.any_cons, List.any_nil, Bool.or_false, Bool.or_eq_true,
        decide_eq_true_eq, not_or]
      omega)]
  · intro p w6 h
    rw [Teredo_toIPv6] at h
    by_cases hf : p.flags < 0 ∨ p.flags > 65536
    · rw [if_pos hf] at h
      exact absurd h (by simp)
    · rw [if_neg hf] at h
      by_cases hp : p.port < 0 ∨ p.port > 65536
      · rw [if_pos hp] at h
        exact absurd h (by simp)
      · rw [if_neg hp] at h
        simp only [Except.ok.injEq] at h
        have hx01 : (copyWordOp x0 x1 ^^^ 65535) % 65536 = copyWordOp x0 x1 ^^^ 65535 :=
          Nat.mod_eq_of_lt (xor_ffff_lt _ hlt01)
        have hx23 : (copyWordOp x2 x3 ^^^ 65535) % 65536 = copyWordOp x2 x3 ^^^ 65535 :=
          Nat.mod_eq_of_lt (xor_ffff_lt _ hlt23)
        have hw6 : w6 = [0x2001, 0,
            copyWordOp (p.ipv4.getD 0 0) (p.ipv4.getD 1 0) % 65536,
            copyWordOp (p.ipv4.getD 2 0) (p.ipv4.getD 3 0) % 65536,
            p.flags.toNat % 65536, (p.port.toNat ^^^ 0xFFFF) % 65536,
            copyWordOp x0 x1 ^^^ 65535, copyWordOp x2 x3 ^^^ 65535] := by
          rw [← h, copyIPv4ToIPv6Address, copyIPv4ToIPv6Address]
          simp only [List.getD_cons_zero, List.getD_cons_succ]
          rw [hx01, hx23]
          rfl
        have hvalid : Teredo_isValid [0x2001, 0,
            copyWordOp (p.ipv4.getD 0 0) (p.ipv4.getD 1 0) % 65536,
            copyWordOp (p.ipv4.getD 2 0) (p.ipv4.getD 3 0) % 65536,
            p.flags.toNat % 65536, (p.port.toNat ^^^ 0xFFFF) % 65536,
            copyWordOp x0 x1 ^^^ 65535, copyWordOp x2 x3 ^^^ 65535] = true := rfl
        rw [hw6, Teredo_toIPv4, if_pos hvalid, copyIPv6ToIPv4Address]
        simp only [List.getD_cons_zero, List.getD_cons_succ]
        rw [Nat.xor_cancel_right, Nat.xor_cancel_right]
        rw [copyWordOp_shiftRight _ _ (by omega), copyWordOp_and255 _ _ (by omega),
          copyWordOp_shiftRight _ _ (by omega), copyWordOp_and255 _ _ (by omega)]
        rw [mkIPv4, if_neg (by simp)]
        rw [if_neg (by
          simp only [List.any_cons, List.any_nil, Bool.or_false, Bool.or_eq_true,
            decide_eq_true_eq, not_or]
          omega)]

/-- Witness for C4 at `192.0.2.128` with a sample Teredo parameter record. -/
theorem C4_tunneling_round_trip_witness :
    Mapped_toIPv4 (Mapped_toIPv6 [192, 0, 2, 128]) = .ok [192, 0, 2, 128] ∧
    SixToFour_toIPv4 (SixToFour_toIPv6 [192, 0, 2, 128]) = .ok [192, 0, 2, 128] ∧
    ∀ (p : TeredoDatas) (w6 : List Nat), Teredo_toIPv6 [192, 0, 2, 128] p = .ok w6 →
      Teredo_toIPv4 w6 = .ok [192, 0, 2, 128] :=
  C4_tunneling_round_trip 192 0 2 128 (by decide) (by decide) (by decide) (by decide)

/-! ## Claim C5 -/

/-- C5: for each mode, `toIPv4` throws the invalid-ipv6-tunneling error
exactly when `isValid` is false, with `isValid` as described (Mapped: words
0..4 zero and word 5 `0xFFFF`; 6to4: word 0 `0x2002`; Teredo: word 0
`0x2001` and word 1 zero); when `isValid` holds, `toIPv4` returns an address
without error. -/
theorem C5_toIPv4_error_iff (v6 : List Nat) (hlen : v6.length = 8)
    (hb : ∀ w ∈ v6, w ≤ 65535) :
    (Mapped_isValid v6 = true ↔ (∀ i < 5, v6.getD i 0 = 0) ∧ v6.getD 5 0 = 0xffff) ∧
    (Mapped_toIPv4 v6 = .error .invalidTunneling ↔ ¬Mapped_isValid v6 = true) ∧
    (Mapped_isValid v6 = true → ∃ a, Mapped_toIPv4 v6 = .ok a) ∧
    (SixToFour_toIPv4 v6 = .error .invalidTunneling ↔ ¬v6.getD 0 0 = 0x2002) ∧
    (v6.getD 0 0 = 0x2002 → ∃ a, SixToFour_toIPv4 v6 = .ok a) ∧
    (Teredo_toIPv4 v6 = .error .invalidTunneling ↔
      ¬(v6.getD 0 0 = 0x2001 ∧ v6.getD 1 0 = 0)) ∧
    ((v6.getD 0 0 = 0x2001 ∧ v6.getD 1 0 = 0) → ∃ a, Teredo_toIPv4 v6 = .ok a) := by
  have hmok : Mapped_isValid v6 = true → ∃ a, Mapped_toIPv4 v6 = .ok a := by
    intro hv
    rw [Mapped_toIPv4, if_pos hv]
    exact ⟨_, copyIPv6ToIPv4_ok v6 6 (fun w => w) (fun w hw => hw) hb⟩
  have hsok : SixToFour_isValid v6 = true → ∃ a, SixToFour_toIPv4 v6 = .ok a := by
    intro hv
    rw [SixToFour_toIPv4, if_pos hv]
    exact ⟨_, copyIPv6ToIPv4_ok v6 1 (fun w => w) (fun w hw => hw) hb⟩
  have htok : Teredo_isValid v6 = true → ∃ a, Teredo_toIPv4 v6 = .ok a := by
    intro hv
    rw [Teredo_toIPv4, if_pos hv]
    exact ⟨_, copyIPv6ToIPv4_ok v6 6 (fun w => w ^^^ 0xFFFF)
      (fun w hw => by
        show w ^^^ 0xFFFF ≤ 65535
        have := xor_ffff_lt w (by omega)
        omega) hb⟩
  refine ⟨?_, ?_, hmok, ?_, ?_, ?_, ?_⟩
  · rw [Mapped_isValid]
    constructor
    · intro hv
      simp only [Bool.and_eq_true, List.all_eq_true, beq_iff_eq] at hv
      obtain ⟨hall, h5⟩ := hv
      refine ⟨?_, h5⟩
      intro i hi
      have hmem : v6.getD i 0 ∈ v6.take 5 := by
        have hi8 : i < v6.length := by omega
        have hlt : i < (v6.take 5).length := by
          rw [List.length_take]
          omega
        have heq : v6.getD i 0 = (v6.take 5).getD i 0 := (getD_take v6 5 i hi).symm
        rw [heq, List.getD_eq_getElem _ 0 hlt]
        exact List.getElem_mem hlt
      exact hall _ hmem
    · intro ⟨hall, h5⟩
      simp only [Bool.and_eq_true, List.all_eq_true, beq_iff_eq]
      refine ⟨?_, h5⟩
      intro w hw
      obtain ⟨i, hi, hwi⟩ := List.mem_iff_getElem.mp hw
      have hi5 : i < 5 := by
        have := List.length_take 5 v6
        omega
      have : (v6.take 5)[i] = v6.getD i 0 := by
        rw [← List.getD_eq_getElem _ 0 hi, getD_take v6 5 i hi5]
      rw [← hwi, this]
      exact hall i hi5
  · constructor
    · intro h hv
      obtain ⟨a, ha⟩ := hmok hv
      rw [ha] at h
      simp at h
    · intro hv
      rw [Mapped_toIPv4, if_neg hv]
  · constructor
    · intro h hv
      obtain ⟨a, ha⟩ := hsok (by rw [SixToFour_isValid]; exact beq_iff_eq.mpr hv)
      rw [ha] at h
      simp at h
    · intro hv
      rw [SixToFour_toIPv4, if_neg (by
        rw [SixToFour_isValid]
        simpa using hv)]
  · intro hv
    exact hsok (by rw [SixToFour_isValid]; exact beq_iff_eq.mpr hv)
  · constructor
    · intro h hv
      obtain ⟨a, ha⟩ := htok (by
        rw [Teredo_isValid]
        simp only [Bool.and_eq_true, beq_iff_eq]
        exact hv)
      rw [ha] at h
      simp at h
    · intro hv
      rw [Teredo_toIPv4, if_neg (by
        rw [Teredo_isValid]
        simp only [Bool.and_eq_true, beq_iff_eq]
        exact fun hc => hv hc)]
  · intro hv
    exact htok (by
      rw [Teredo_isValid]
      simp only [Bool.and_eq_true, beq_iff_eq]
      exact hv)

/-- Witness for C5 at the mapped address `::ffff:c000:280`. -/
theorem C5_toIPv4_error_iff_witness :
    (Mapped_isValid [0, 0, 0, 0, 0, 0xffff, 0xc000, 0x280] = true ↔
      (∀ i < 5, ([0, 0, 0, 0, 0, 0xffff, 0xc000, 0x280] : List Nat).getD i 0 = 0) ∧
        ([0, 0, 0, 0, 0, 0xffff, 0xc000, 0x280] : List Nat).getD 5 0 = 0xffff) ∧
    (Mapped_toIPv4 [0, 0, 0, 0, 0, 0xffff, 0xc000, 0x280] = .error .invalidTunneling ↔
      ¬Mapped_isValid [0, 0, 0, 0, 0, 0xffff, 0xc000, 0x280] = true) ∧
    (SixToFour_toIPv4 [0, 0, 0, 0, 0, 0xffff, 0xc000, 0x280] =
        .error .invalidTunneling ↔
      ¬([0, 0, 0, 0, 0, 0xffff, 0xc000, 0x280] : List Nat).getD 0 0 = 0x2002) := by
  have h := C5_toIPv4_error_iff [0, 0, 0, 0, 0, 0xffff, 0xc000, 0x280]
    (by decide) (by decide)
  exact ⟨h.1, h.2.1, h.2.2.2.1⟩

end IpContext
